import Mathlib

/-!
# librime: the user database (`src/dict/user_db.cc`) and the simplifier (`src/gear/simplifier.cc`)

A shallow embedding of `TreeDbAccessor`, `TreeDb`, `UserDb` and `Simplifier`.

The storage engine (kyotocabinet), the file system (boost::filesystem) and the
conversion library (opencc) are external to the repository.  They are modelled
here by their documented contracts:

* a tree database is a list of records kept in ascending key order, keys compared
  byte by byte (the engine's default lexical comparator);
* the file system is a finite map from paths to files; a file is a well-formed tree
  database, a snapshot dump, or anything else;
* every external call that may fail for reasons outside the program (permissions,
  locks, I/O errors) asks an oracle of the environment `Env`;
* the calls `boost::filesystem::exists(p)` and `boost::filesystem::remove(p)` are the
  overloads without an `error_code`: on an error they raise `filesystem_error`, which
  nothing in the sources catches, so the calling method leaves by that exception.
-/

namespace Rime

/-! ## Byte strings -/

/-- A `std::string`: a sequence of bytes. -/
abbrev Bytes := List Nat

/-- The bytes of an ASCII literal. -/
def ascii (s : String) : Bytes := s.data.map Char.toNat

/-- Lexical order of the engine: bytes are compared left to right, a proper
initial segment sorts first. -/
def keyLt : Bytes → Bytes → Bool
  | [], [] => false
  | [], _ :: _ => true
  | _ :: _, [] => false
  | a :: as, b :: bs => if a < b then true else if b < a then false else keyLt as bs

/-- The test `boost::starts_with(key, pfx)`. -/
def starts_with (key pfx : Bytes) : Bool := pfx.isPrefixOf key

/-! ## Records of a tree database -/

abbrev Record := Bytes × Bytes

abbrev Records := List Record

/-- Point lookup `get(key)`. -/
def db_get (k : Bytes) : Records → Option Bytes
  | [] => none
  | (k', v') :: rest => if k' = k then some v' else db_get k rest

/-- Point write `set(key, value)`: replaces the value of an existing key, or inserts
the record at its place in key order. -/
def db_set (k v : Bytes) : Records → Records
  | [] => [(k, v)]
  | (k', v') :: rest =>
    if keyLt k k' then (k, v) :: (k', v') :: rest
    else if k = k' then (k, v) :: rest
    else (k', v') :: db_set k v rest

/-- Point delete `remove(key)`. -/
def db_remove (k : Bytes) (recs : Records) : Records :=
  recs.filter (fun r => decide (r.1 ≠ k))

/-- The effect of `load_snapshot`: every record of the dump is written with `set`,
on top of what the database already holds. -/
def db_load (dump : Records) (recs : Records) : Records :=
  dump.foldl (fun acc r => db_set r.1 r.2 acc) recs

/-- Keys in strictly ascending order: the shape of every tree database. -/
def Ascending (recs : Records) : Prop :=
  recs.Pairwise (fun a b => keyLt a.1 b.1 = true)

instance (recs : Records) : Decidable (Ascending recs) := by
  unfold Ascending; infer_instance

/-! ## Files and the file system -/

inductive File where
  | tree (recs : Records)
  | snapshot (recs : Records)
  | other (bytes : Bytes)
  deriving DecidableEq

/-- The files the process can reach: `fs p = some f` says that the status query on
the path `p` finds the file `f`. -/
abbrev FileSystem := Bytes → Option File

def fs_write (fs : FileSystem) (p : Bytes) (f : File) : FileSystem :=
  fun q => if q = p then some f else fs q

def fs_erase (fs : FileSystem) (p : Bytes) : FileSystem :=
  fun q => if q = p then none else fs q

/-- A successful `rename(src, dst)`: `dst` now holds the file of `src` (replacing
what was there), `src` is gone. -/
def fs_rename (fs : FileSystem) (src dst : Bytes) : FileSystem :=
  fun q => if q = dst then fs src else if q = src then none else fs q

/-! ## Environment -/

/-- Everything the code reads from outside: the deployer of `Service::instance()`,
the version tag `RIME_VERSION`, the path concatenation of boost::filesystem, and
the oracles that decide whether an external call succeeds: opening a path given the
file found there (if any), writing a key and value, removing a key, dumping to a
path, loading from a path, renaming a path to another, deleting a path, and, for a
path at which no file is found, whether the status query reports the absence
(`stat_ok`) or fails with another error (name too long, directory not searchable). -/
structure Env where
  user_data_dir : Bytes
  user_id : Bytes
  rime_version : Bytes
  path_join : Bytes → Bytes → Bytes
  open_ok : Bytes → Option File → Bool
  set_ok : Bytes → Bytes → Bool
  remove_ok : Bytes → Bool
  dump_ok : Bytes → Bool
  load_ok : Bytes → Bool
  rename_ok : Bytes → Bytes → Bool
  unlink_ok : Bytes → Bool
  stat_ok : Bytes → Bool

/-! ## TreeDb -/

/-- State of the engine object `db_`. -/
inductive Handle where
  | closed
  | reader
  | writer
  deriving DecidableEq

/-- A `TreeDb` object (`name_`, `file_name_`, `loaded_`, `db_`, and whether its
dynamic type is `UserDb`) together with the file system it works on and a count of
the calls made to the engine.  The records of an open database live in its file. -/
structure State where
  name_ : Bytes
  file_name_ : Bytes
  loaded_ : Bool
  db_ : Handle
  user_db : Bool
  fs : FileSystem
  engine_calls : Nat

def db_name_key : Bytes := ascii "\x01/db_name"

def rime_version_key : Bytes := ascii "\x01/rime_version"

def db_type_key : Bytes := ascii "\x01/db_type"

def user_id_key : Bytes := ascii "\x01/user_id"

def snapshot_suffix : Bytes := ascii ".snapshot"

def old_suffix : Bytes := ascii ".old"

/-- The records of the database file, when it is a well-formed tree database. -/
def content (s : State) : Option Records :=
  match s.fs s.file_name_ with
  | some (File.tree recs) => some recs
  | _ => none

def touch (s : State) : State := { s with engine_calls := s.engine_calls + 1 }

/-- Constructor `TreeDb::TreeDb(name)`. -/
def TreeDb.new (env : Env) (name : Bytes) (fs : FileSystem) : State :=
  { name_ := name,
    file_name_ := env.path_join env.user_data_dir name,
    loaded_ := false,
    db_ := Handle.closed,
    user_db := false,
    fs := fs,
    engine_calls := 0 }

/-- Constructor `UserDb::UserDb(name) : TreeDb(name + ".userdb.kct")`. -/
def UserDb.new (env : Env) (name : Bytes) (fs : FileSystem) : State :=
  { TreeDb.new env (name ++ ascii ".userdb.kct") fs with user_db := true }

/-- The method `TreeDb::Initialize`: a new, closed engine object. -/
def Initialize (s : State) : State := touch { s with db_ := Handle.closed }

/-- Engine call `db_->open(path, mode)`.  A writer creates an absent file as an
empty database; a file that is not a tree database cannot be opened. -/
def eng_open (env : Env) (s : State) (writer : Bool) : Bool × State :=
  let s1 := touch s
  if env.open_ok s.file_name_ (s.fs s.file_name_) then
    match s.fs s.file_name_ with
    | some (File.tree _) =>
      (true, { s1 with db_ := if writer then Handle.writer else Handle.reader })
    | none =>
      if writer then
        (true, { s1 with db_ := Handle.writer,
                         fs := fs_write s.fs s.file_name_ (File.tree []) })
      else (false, s1)
    | some _ => (false, s1)
  else (false, s1)

/-- Engine call `db_->get(key, value)`. -/
def eng_get (s : State) (key : Bytes) : Option Bytes × State :=
  match s.db_, s.fs s.file_name_ with
  | Handle.closed, _ => (none, touch s)
  | _, some (File.tree recs) => (db_get key recs, touch s)
  | _, _ => (none, touch s)

/-- Engine call `db_->set(key, value)`. -/
def eng_set (env : Env) (s : State) (key value : Bytes) : Bool × State :=
  match s.db_, s.fs s.file_name_ with
  | Handle.writer, some (File.tree recs) =>
    if env.set_ok key value then
      (true, touch { s with fs := fs_write s.fs s.file_name_ (File.tree (db_set key value recs)) })
    else (false, touch s)
  | _, _ => (false, touch s)

/-- Engine call `db_->remove(key)`: fails when the key is not there. -/
def eng_remove (env : Env) (s : State) (key : Bytes) : Bool × State :=
  match s.db_, s.fs s.file_name_ with
  | Handle.writer, some (File.tree recs) =>
    if env.remove_ok key && (db_get key recs).isSome then
      (true, touch { s with fs := fs_write s.fs s.file_name_ (File.tree (db_remove key recs)) })
    else (false, touch s)
  | _, _ => (false, touch s)

/-- Engine call `db_->dump_snapshot(dest)`. -/
def eng_dump_snapshot (env : Env) (s : State) (dest : Bytes) : Bool × State :=
  match s.db_, s.fs s.file_name_ with
  | Handle.closed, _ => (false, touch s)
  | _, some (File.tree recs) =>
    if env.dump_ok dest then
      (true, touch { s with fs := fs_write s.fs dest (File.snapshot recs) })
    else (false, touch s)
  | _, _ => (false, touch s)

/-- Engine call `db_->load_snapshot(src)`.  A failed load is modelled as leaving the
records as they were. -/
def eng_load_snapshot (env : Env) (s : State) (src : Bytes) : Bool × State :=
  match s.db_, s.fs s.file_name_, s.fs src with
  | Handle.writer, some (File.tree recs), some (File.snapshot dump) =>
    if env.load_ok src then
      (true, touch { s with fs := fs_write s.fs s.file_name_ (File.tree (db_load dump recs)) })
    else (false, touch s)
  | _, _, _ => (false, touch s)

/-- Method `TreeDb::Fetch(key, value)` with a non-null `value`: `some v` stands for
`true` with `*value = v`. -/
def Fetch (s : State) (key : Bytes) : Option Bytes × State :=
  if !s.loaded_ then (none, s) else eng_get s key

/-- Method `TreeDb::Update`. -/
def Update (env : Env) (s : State) (key value : Bytes) : Bool × State :=
  if !s.loaded_ then (false, s) else eng_set env s key value

/-- Method `TreeDb::Erase`. -/
def Erase (env : Env) (s : State) (key : Bytes) : Bool × State :=
  if !s.loaded_ then (false, s) else eng_remove env s key

/-- Method `TreeDb::Backup`. -/
def Backup (env : Env) (s : State) : Bool × State :=
  if !s.loaded_ then (false, s)
  else eng_dump_snapshot env s (s.file_name_ ++ snapshot_suffix)

/-- Method `TreeDb::Restore`. -/
def Restore (env : Env) (s : State) (snapshot_file : Bytes) : Bool × State :=
  if !s.loaded_ then (false, s) else eng_load_snapshot env s snapshot_file

/-- How a call that may raise ends: it returns a value, or it leaves by the
exception `filesystem_error`; both with the state reached. -/
inductive Outcome where
  | returned (value : Bool) (s : State)
  | thrown (s : State)

/-- The value returned, if the call returned. -/
def Outcome.value : Outcome → Option Bool
  | Outcome.returned b _ => some b
  | Outcome.thrown _ => none

/-- The state in which the call ended. -/
def Outcome.state : Outcome → State
  | Outcome.returned _ s => s
  | Outcome.thrown s => s

/-- The call `boost::filesystem::exists(p)`: `true` for a file found at `p`, `false`
when the status query reports that there is none, and `none`, the exception, when
the status of `p` cannot be determined. -/
def fs_exists (env : Env) (fs : FileSystem) (p : Bytes) : Option Bool :=
  match fs p with
  | some _ => some true
  | none => if env.stat_ok p then some false else none

/-- Method `TreeDb::Exists`; `none` when `exists` raises. -/
def Exists (env : Env) (s : State) : Option Bool := fs_exists env s.fs s.file_name_

/-- Method `TreeDb::Remove`.  `boost::filesystem::remove` answers `true` for a file
it deleted and `false` for an absent one, and raises when the status of the path
cannot be determined or the deletion is refused. -/
def Remove (env : Env) (s : State) : Outcome :=
  if s.loaded_ then Outcome.returned false s
  else
    match s.fs s.file_name_ with
    | none =>
      if env.stat_ok s.file_name_ then Outcome.returned false s else Outcome.thrown s
    | some _ =>
      if env.unlink_ok s.file_name_ then
        Outcome.returned true { s with fs := fs_erase s.fs s.file_name_ }
      else Outcome.thrown s

/-- Method `TreeDb::Close`. -/
def Close (s : State) : Bool × State :=
  if !s.loaded_ then (false, s)
  else (true, { touch s with db_ := Handle.closed, loaded_ := false })

/-- Method `TreeDb::CreateMetadata`. -/
def TreeDb.CreateMetadata (env : Env) (s : State) : Bool × State :=
  let r1 := eng_set env s db_name_key s.name_
  if r1.1 then eng_set env r1.2 rime_version_key env.rime_version else (false, r1.2)

/-- Method `UserDb::CreateMetadata`. -/
def UserDb.CreateMetadata (env : Env) (s : State) : Bool × State :=
  let r1 := TreeDb.CreateMetadata env s
  if r1.1 then
    let r2 := eng_set env r1.2 db_type_key (ascii "userdb")
    if r2.1 then eng_set env r2.2 user_id_key env.user_id else (false, r2.2)
  else (false, r1.2)

/-- Modelled from the spec: the class declaration (`user_db.h`) is not among the
sources; the spec says the user store overrides the metadata bootstrap step, so the
call `CreateMetadata()` made by `Open` is dispatched on the dynamic type. -/
def CreateMetadata (env : Env) (s : State) : Bool × State :=
  if s.user_db then UserDb.CreateMetadata env s else TreeDb.CreateMetadata env s

/-- Method `TreeDb::OpenReadOnly`. -/
def OpenReadOnly (env : Env) (s : State) : Bool × State :=
  if s.loaded_ then (false, s)
  else
    let r := eng_open env (Initialize s) false
    (r.1, { r.2 with loaded_ := r.1 })

/-- The step of `RecoverFromSnapshot` that moves the main file out of the way
(`if (Exists()) ...`).  `returned true`: the method goes on to
`Open() && Restore(snapshot_file)`; `returned false`: the rename failed and
`Remove()` returned false, the method returns false; `thrown`: `Exists()` or
`Remove()` raised. -/
def set_aside (env : Env) (s : State) : Outcome :=
  match Exists env s with
  | none => Outcome.thrown s
  | some false => Outcome.returned true s
  | some true =>
    if env.rename_ok s.file_name_ (s.file_name_ ++ old_suffix) then
      Outcome.returned true
        { s with fs := fs_rename s.fs s.file_name_ (s.file_name_ ++ old_suffix) }
    else Remove env s

mutual
/-- Method `TreeDb::Open`.  The first argument bounds the depth of the calls
`Open -> RecoverFromSnapshot -> Open`; `none` means the bound was reached. -/
def Open (env : Env) : Nat → State → Option Outcome
  | 0, _ => none
  | n + 1, s =>
    if s.loaded_ then some (Outcome.returned false s)
    else
      let r := eng_open env (Initialize s) true
      let s1 := { r.2 with loaded_ := r.1 }
      if s1.loaded_ then
        match Fetch s1 db_name_key with
        | (some _, s2) => some (Outcome.returned s2.loaded_ s2)
        | (none, s2) =>
          let s3 := (CreateMetadata env s2).2
          some (Outcome.returned s3.loaded_ s3)
      else
        match RecoverFromSnapshot env n s1 with
        | none => none
        | some (Outcome.thrown s2) => some (Outcome.thrown s2)
        | some (Outcome.returned _ s2) => some (Outcome.returned s2.loaded_ s2)
/-- Method `TreeDb::RecoverFromSnapshot`. -/
def RecoverFromSnapshot (env : Env) : Nat → State → Option Outcome
  | 0, _ => none
  | n + 1, s =>
    match fs_exists env s.fs (s.file_name_ ++ snapshot_suffix) with
    | none => some (Outcome.thrown s)
    | some false => some (Outcome.returned false s)
    | some true =>
      let s1 := if s.loaded_ then (Close s).2 else s
      match set_aside env s1 with
      | Outcome.thrown s2 => some (Outcome.thrown s2)
      | Outcome.returned false s2 => some (Outcome.returned false s2)
      | Outcome.returned true s2 =>
        match Open env n s2 with
        | none => none
        | some (Outcome.thrown s3) => some (Outcome.thrown s3)
        | some (Outcome.returned false s3) => some (Outcome.returned false s3)
        | some (Outcome.returned true s3) =>
          some (Outcome.returned (Restore env s3 (s.file_name_ ++ snapshot_suffix)).1
            (Restore env s3 (s.file_name_ ++ snapshot_suffix)).2)
end

/-! ## TreeDbAccessor -/

/-- A cursor of the engine over the records `db` of an open database: `rest` holds
the record under the cursor followed by all later ones, in key order; an empty
`rest` is a cursor without a position. -/
structure Cursor where
  db : Records
  rest : Records

/-- Engine call `cursor->jump()`: to the first record. -/
def Cursor.jump (c : Cursor) : Bool × Cursor :=
  (!c.db.isEmpty, { c with rest := c.db })

/-- Engine call `cursor->jump(key)`: to the first record whose key is not below
`key`; without such a record the call fails and the position is cleared. -/
def Cursor.jump_to (c : Cursor) (key : Bytes) : Bool × Cursor :=
  let r := c.db.dropWhile (fun x => keyLt x.1 key)
  (!r.isEmpty, { c with rest := r })

/-- Engine call `cursor->get(key, value, step)`. -/
def Cursor.get (c : Cursor) (step : Bool) : Option Record × Cursor :=
  match c.rest with
  | [] => (none, c)
  | r :: rs => (some r, if step then { c with rest := rs } else c)

/-- Engine call `cursor->get_key(key, step)`. -/
def Cursor.get_key (c : Cursor) (step : Bool) : Option Bytes × Cursor :=
  ((c.get step).1.map Prod.fst, (c.get step).2)

structure TreeDbAccessor where
  cursor_ : Option Cursor
  prefix_ : Bytes

namespace TreeDbAccessor

/-- Method `TreeDbAccessor::Reset`. -/
def Reset (a : TreeDbAccessor) : Bool × TreeDbAccessor :=
  match a.cursor_ with
  | none => (false, a)
  | some c => (c.jump.1, { a with cursor_ := some c.jump.2 })

/-- Method `TreeDbAccessor::Forward`. -/
def Forward (a : TreeDbAccessor) (key : Bytes) : Bool × TreeDbAccessor :=
  match a.cursor_ with
  | none => (false, a)
  | some c => ((c.jump_to key).1, { a with cursor_ := some (c.jump_to key).2 })

/-- Constructor `TreeDbAccessor::TreeDbAccessor(cursor, pfx)`. -/
def new (cursor : Option Cursor) (pfx : Bytes) : TreeDbAccessor :=
  let a := (Reset { cursor_ := cursor, prefix_ := pfx }).2
  if !pfx.isEmpty then (Forward a pfx).2 else a

/-- Method `TreeDbAccessor::GetNextRecord(key, value)` with non-null arguments.  The
middle component is what the call stored into `*key` and `*value`, if anything. -/
def GetNextRecord (a : TreeDbAccessor) : Bool × Option Record × TreeDbAccessor :=
  match a.cursor_ with
  | none => (false, none, a)
  | some c =>
    match c.get true with
    | (none, c1) => (false, none, { a with cursor_ := some c1 })
    | (some r, c1) => (starts_with r.1 a.prefix_, some r, { a with cursor_ := some c1 })

/-- Method `TreeDbAccessor::exhausted`.  The source dereferences `cursor_` unchecked:
`none` stands for the call on a null cursor. -/
def exhausted (a : TreeDbAccessor) : Option Bool :=
  match a.cursor_ with
  | none => none
  | some c =>
    match (c.get_key false).1 with
    | none => some true
    | some key => some (!starts_with key a.prefix_)

/-- The loop of a caller: successive `GetNextRecord` calls up to the first failing
one.  Yields the records of the successful calls and the accessor after the failing
call; `none` when the given number of calls did not reach a failing one. -/
def read_all : Nat → TreeDbAccessor → Option (List Record × TreeDbAccessor)
  | 0, _ => none
  | n + 1, a =>
    match GetNextRecord a with
    | (true, some r, a1) => (read_all n a1).map (fun p => (r :: p.1, p.2))
    | (_, _, a1) => some ([], a1)

end TreeDbAccessor

/-- Method `TreeDb::Query`: `none` is the null accessor. -/
def Query (s : State) (key : Bytes) : Option TreeDbAccessor × State :=
  if !s.loaded_ then (none, s)
  else
    (some (TreeDbAccessor.new (some { db := (content s).getD [], rest := [] }) key), touch s)

/-! ## Simplifier -/

/-- An `Opencc` object: whether `opencc_open` gave a valid descriptor, the number of
code points `utf8to32` decodes from a text, and the outcome of `opencc_convert` in
list-candidates mode (`true`) or fast mode (`false`): `none` when it reports that
nothing was converted, else the converted text. -/
structure Opencc where
  od_valid : Bool
  utf8_count : Bytes → Nat
  opencc_convert : Bool → Bytes → Option Bytes

inductive TipLevel where
  | kTipNone
  | kTipChar
  | kTipAll
  deriving DecidableEq

/-- The call `boost::split(forms, s, boost::is_any_of(" "))` for one separator byte:
every separator ends a token, empty tokens are kept. -/
def split (sep : Nat) : Bytes → List Bytes
  | [] => [[]]
  | c :: cs =>
    if c = sep then [] :: split sep cs
    else
      match split sep cs with
      | [] => [[c]]
      | h :: t => (c :: h) :: t

structure Simplifier where
  initialized_ : Bool
  tip_level_ : TipLevel
  opencc_ : Option Opencc

namespace Simplifier

/-- Method `Simplifier::Initialize`; `fresh` is the `Opencc` object the constructor
call yields for the configured path. -/
def Initialize (sp : Simplifier) (fresh : Opencc) : Simplifier :=
  { sp with initialized_ := true, opencc_ := some fresh }

end Simplifier

/-- The metadata block written at creation, in the order of the writes: name and
version tag, and for a user database the type tag and the user id. -/
def metadata_block (env : Env) (s : State) : Records :=
  [(db_name_key, s.name_), (rime_version_key, env.rime_version)] ++
    (if s.user_db then [(db_type_key, ascii "userdb"), (user_id_key, env.user_id)] else [])

/-- The state of the object `s` once it is open for writing on the records `recs`,
after `c` engine calls. -/
def loaded_with (s : State) (recs : Records) (c : Nat) : State :=
  { s with loaded_ := true, db_ := Handle.writer,
           fs := fs_write s.fs s.file_name_ (File.tree recs), engine_calls := c }

def demo_env : Env :=
  { user_data_dir := ascii "/data",
    user_id := ascii "u1",
    rime_version := ascii "0.9",
    path_join := fun d n => d ++ ascii "/" ++ n,
    open_ok := fun _ _ => true,
    set_ok := fun _ _ => true,
    remove_ok := fun _ => true,
    dump_ok := fun _ => true,
    load_ok := fun _ => true,
    rename_ok := fun _ _ => true,
    unlink_ok := fun _ => true,
    stat_ok := fun _ => true }

def empty_fs : FileSystem := fun _ => none

def demo_closed : State := TreeDb.new demo_env (ascii "alice") empty_fs

def demo_loaded : State :=
  { demo_closed with
    loaded_ := true, db_ := Handle.writer,
    fs := fs_write empty_fs demo_closed.file_name_ (File.tree [(ascii "a1", ascii "v1")]) }

/-- What `Open` makes of the outcome of `RecoverFromSnapshot`: it returns `loaded_`
whatever the call returned, and an exception passes through. -/
def Outcome.of_recovery : Outcome → Outcome
  | Outcome.returned _ s => Outcome.returned s.loaded_ s
  | Outcome.thrown s => Outcome.thrown s

/-- The state in which `Open` calls `RecoverFromSnapshot` after the engine failed to
open the file of the closed store `s`: a new closed engine object, two engine calls
later. -/
def after_failed_open (s : State) : State :=
  { s with db_ := Handle.closed, engine_calls := s.engine_calls + 2 }

/-- A store whose main file is unusable and whose snapshot file is unusable too. -/
def broken_fs : FileSystem :=
  fs_write (fs_write empty_fs demo_closed.file_name_ (File.other [0]))
    (demo_closed.file_name_ ++ snapshot_suffix) (File.other [1])

def broken : State := { demo_closed with fs := broken_fs }

/-- An environment in which the engine can open nothing. -/
def stuck_env : Env := { demo_env with open_ok := fun _ _ => false }

/-- A closed store with an unusable main file and a snapshot of one record. -/
def stuck : State :=
  { demo_closed with
    fs := fs_write (fs_write empty_fs demo_closed.file_name_ (File.other [0]))
      (demo_closed.file_name_ ++ snapshot_suffix) (File.snapshot [(ascii "a1", ascii "v1")]) }

/-- A closed store with an unusable main file and a snapshot of two records. -/
def recoverable : State :=
  { demo_closed with
    fs := fs_write (fs_write empty_fs demo_closed.file_name_ (File.other [0]))
      (demo_closed.file_name_ ++ snapshot_suffix)
      (File.snapshot [(ascii "a1", ascii "v1"), (ascii "b1", ascii "v3")]) }

/-- A closed store whose main file is a tree database that already carries a
`db_name` record. -/
def labelled : State :=
  { demo_closed with
    fs := fs_write empty_fs demo_closed.file_name_
      (File.tree [(db_name_key, ascii "bob"), (ascii "a1", ascii "v1")]) }

/-- A closed user store whose main file is a tree database without metadata. -/
def unlabelled_user : State :=
  { UserDb.new demo_env (ascii "alice") empty_fs with
    fs := fs_write empty_fs (UserDb.new demo_env (ascii "alice") empty_fs).file_name_
      (File.tree [(ascii "a1", ascii "v1")]) }

/-- The store `s` after `Backup()` and `Close()`, once an outside event has left the
file `g` at the main path. -/
def backed_up_then_corrupted (env : Env) (s : State) (g : File) : State :=
  { (Close (Backup env s).2).2 with
    fs := fs_write (Close (Backup env s).2).2.fs s.file_name_ g }

/-- The store `s` after `Backup()` and `Close()`, once an outside event has deleted
the main file. -/
def backed_up_then_deleted (env : Env) (s : State) : State :=
  { (Close (Backup env s).2).2 with
    fs := fs_erase (Close (Backup env s).2).2.fs s.file_name_ }

/-- The store "alice" open on its metadata and one record. -/
def alice_records : Records :=
  [(db_name_key, ascii "alice"), (rime_version_key, ascii "0.9"), (ascii "a1", ascii "v1")]

def alice_loaded : State :=
  { demo_closed with
    loaded_ := true, db_ := Handle.writer,
    fs := fs_write empty_fs demo_closed.file_name_ (File.tree alice_records) }

/-- The store "alice" of the scenario: its metadata and the records written. -/
def scenario_records : Records :=
  [(db_name_key, ascii "alice"), (rime_version_key, ascii "0.9"),
   (ascii "a1", ascii "v1"), (ascii "a2", ascii "v2"), (ascii "b1", ascii "v3")]

def scenario : State :=
  { demo_closed with
    loaded_ := true, db_ := Handle.writer,
    fs := fs_write empty_fs demo_closed.file_name_ (File.tree scenario_records) }

theorem keyLt_irrefl (a : Bytes) : keyLt a a = false := by
  induction a with
  | nil => rfl
  | cons x xs ih => simp [keyLt, ih]

theorem keyLt_trans : ∀ (a b c : Bytes), keyLt a b = true → keyLt b c = true → keyLt a c = true
  | [], [], _, h, _ => by simp [keyLt] at h
  | [], _ :: _, [], _, h => by simp [keyLt] at h
  | [], _ :: _, _ :: _, _, _ => by simp [keyLt]
  | _ :: _, [], _, h, _ => by simp [keyLt] at h
  | _ :: _, _ :: _, [], _, h => by simp [keyLt] at h
  | x :: xs, y :: ys, z :: zs, h1, h2 => by
    simp only [keyLt] at h1 h2 ⊢
    by_cases hxy : x < y
    · by_cases hyz : y < z
      · have : x < z := lt_trans hxy hyz
        simp [this]
      · by_cases hzy : z < y
        · simp [hyz, hzy] at h2
        · have : y = z := by omega
          subst this; simp [hxy]
    · by_cases hyx : y < x
      · simp [hxy, hyx] at h1
      · have hxy' : x = y := by omega
        subst hxy'
        simp only [hxy, if_false] at h1
        by_cases hyz : x < z
        · simp [hyz]
        · by_cases hzy : z < x
          · simp [hyz, hzy] at h2
          · simp only [hyz, hzy, if_false] at h2 ⊢
            exact keyLt_trans xs ys zs h1 h2

theorem keyLt_total : ∀ (a b : Bytes), keyLt a b = false → a ≠ b → keyLt b a = true
  | [], [], _, h => by simp at h
  | [], _ :: _, h, _ => by simp [keyLt] at h
  | _ :: _, [], _, _ => by simp [keyLt]
  | x :: xs, y :: ys, h1, h2 => by
    simp only [keyLt] at h1 ⊢
    by_cases hxy : x < y
    · simp [hxy] at h1
    · by_cases hyx : y < x
      · simp [hyx]
      · have hxy' : x = y := by omega
        subst hxy'
        simp only [hxy, if_false] at h1 ⊢
        exact keyLt_total xs ys h1 (by intro h; exact h2 (by rw [h]))

theorem keyLt_asymm (a b : Bytes) (h : keyLt a b = true) : keyLt b a = false := by
  cases hba : keyLt b a with
  | false => rfl
  | true =>
    have := keyLt_trans a b a h hba
    rw [keyLt_irrefl] at this
    exact this.symm ▸ rfl

theorem keyLt_ne (a b : Bytes) (h : keyLt a b = true) : a ≠ b := by
  intro e; subst e; rw [keyLt_irrefl] at h; exact Bool.noConfusion h


/-! ### Records -/

theorem db_get_set_same (k v : Bytes) (r : Records) : db_get k (db_set k v r) = some v := by
  induction r with
  | nil => simp [db_set, db_get]
  | cons hd tl ih =>
    obtain ⟨k', v'⟩ := hd
    simp only [db_set]
    split
    · simp [db_get]
    · split
      · simp [db_get]
      · rename_i _ hne
        simp [db_get, ih, Ne.symm hne]

theorem db_get_set_other (k v k' : Bytes) (r : Records) (h : k' ≠ k) :
    db_get k' (db_set k v r) = db_get k' r := by
  induction r with
  | nil => simp [db_set, db_get, Ne.symm h]
  | cons hd tl ih =>
    obtain ⟨k0, v0⟩ := hd
    simp only [db_set]
    split
    · simp [db_get, Ne.symm h]
    · split
      · rename_i _ he
        subst he
        simp [db_get, Ne.symm h]
      · simp [db_get, ih]

theorem db_set_keys (k v : Bytes) (r : Records) (p : Record) (h : p ∈ db_set k v r) :
    p = (k, v) ∨ p ∈ r := by
  induction r with
  | nil => simp [db_set] at h; exact Or.inl h
  | cons hd tl ih =>
    obtain ⟨k0, v0⟩ := hd
    simp only [db_set] at h
    split at h
    · simp at h ⊢; exact h
    · split at h
      · simp at h ⊢
        rcases h with h | h
        · exact Or.inl h
        · exact Or.inr (Or.inr h)
      · simp at h ⊢
        rcases h with h | h
        · exact Or.inr (Or.inl h)
        · rcases ih h with h | h
          · exact Or.inl h
          · exact Or.inr (Or.inr h)

theorem ascending_set (k v : Bytes) (r : Records) (h : Ascending r) :
    Ascending (db_set k v r) := by
  induction r with
  | nil => simp [db_set, Ascending]
  | cons hd tl ih =>
    obtain ⟨k0, v0⟩ := hd
    unfold Ascending at h ih ⊢
    rw [List.pairwise_cons] at h
    simp only [db_set]
    split
    · rename_i hlt
      rw [List.pairwise_cons]
      refine ⟨?_, List.pairwise_cons.2 h⟩
      intro p hp
      rcases List.mem_cons.1 hp with hp | hp
      · subst hp; exact hlt
      · exact keyLt_trans _ _ _ hlt (h.1 p hp)
    · split
      · rename_i _ he
        subst he
        rw [List.pairwise_cons]
        exact ⟨h.1, h.2⟩
      · rename_i hnlt hne
        rw [List.pairwise_cons]
        refine ⟨?_, ih h.2⟩
        intro p hp
        rcases db_set_keys k v tl p hp with hp | hp
        · subst hp
          exact keyLt_total k k0 (by simpa using hnlt) hne
        · exact h.1 p hp

theorem ascending_load (l r : Records) (h : Ascending r) : Ascending (db_load l r) := by
  induction l generalizing r with
  | nil => simpa [db_load] using h
  | cons hd tl ih =>
    simp only [db_load, List.foldl_cons]
    exact ih _ (ascending_set _ _ _ h)

theorem db_get_load_other (l r : Records) (k : Bytes) (h : ∀ p ∈ l, p.1 ≠ k) :
    db_get k (db_load l r) = db_get k r := by
  induction l generalizing r with
  | nil => simp [db_load]
  | cons hd tl ih =>
    simp only [db_load, List.foldl_cons]
    have h1 := ih (db_set hd.1 hd.2 r) (fun p hp => h p (List.mem_cons_of_mem _ hp))
    simp only [db_load] at h1
    rw [h1]
    exact db_get_set_other _ _ _ _ (Ne.symm (h hd (List.mem_cons_self _ _)))

theorem db_get_load_mem (l r : Records) (k v : Bytes) (hl : Ascending l) (h : (k, v) ∈ l) :
    db_get k (db_load l r) = some v := by
  induction l generalizing r with
  | nil => simp at h
  | cons hd tl ih =>
    unfold Ascending at hl ih
    rw [List.pairwise_cons] at hl
    simp only [db_load, List.foldl_cons]
    rcases List.mem_cons.1 h with h | h
    · subst h
      have h1 := db_get_load_other tl (db_set k v r) k
        (fun p hp => Ne.symm (keyLt_ne _ _ (hl.1 p hp)))
      simp only [db_load] at h1
      rw [h1]
      exact db_get_set_same _ _ _
    · have h1 := ih (db_set hd.1 hd.2 r) hl.2 h
      simpa [db_load] using h1

theorem db_get_none_of_not_mem (r : Records) (k : Bytes) (h : ∀ p ∈ r, p.1 ≠ k) :
    db_get k r = none := by
  induction r with
  | nil => rfl
  | cons hd tl ih =>
    obtain ⟨k0, v0⟩ := hd
    have h0 : k0 ≠ k := h (k0, v0) (List.mem_cons_self _ _)
    simp [db_get, h0, ih (fun p hp => h p (List.mem_cons_of_mem _ hp))]

theorem db_get_some_mem (r : Records) (k v : Bytes) (h : db_get k r = some v) : (k, v) ∈ r := by
  induction r with
  | nil => simp [db_get] at h
  | cons hd tl ih =>
    obtain ⟨k0, v0⟩ := hd
    simp only [db_get] at h
    split at h
    · rename_i he
      subst he
      simp at h
      subst h
      exact List.mem_cons_self _ _
    · exact List.mem_cons_of_mem _ (ih h)

theorem db_get_of_mem (r : Records) (k v : Bytes) (hr : Ascending r) (h : (k, v) ∈ r) :
    db_get k r = some v := by
  induction r with
  | nil => simp at h
  | cons hd tl ih =>
    obtain ⟨k0, v0⟩ := hd
    unfold Ascending at hr ih
    rw [List.pairwise_cons] at hr
    rcases List.mem_cons.1 h with h | h
    · injection h with h1 h2
      subst h1; subst h2
      simp [db_get]
    · have hne : k0 ≠ k := keyLt_ne _ _ (hr.1 _ h)
      simp [db_get, hne, ih hr.2 h]

theorem ascending_ext (a b : Records) (ha : Ascending a) (hb : Ascending b)
    (h : ∀ k, db_get k a = db_get k b) : a = b := by
  induction a generalizing b with
  | nil =>
    cases b with
    | nil => rfl
    | cons hd tl =>
      have := h hd.1
      simp [db_get] at this
  | cons hd tl ih =>
    obtain ⟨k0, v0⟩ := hd
    cases b with
    | nil =>
      have := h k0
      simp [db_get] at this
    | cons hd' tl' =>
      obtain ⟨k1, v1⟩ := hd'
      have ha' := ha
      have hb' := hb
      unfold Ascending at ha' hb'
      rw [List.pairwise_cons] at ha' hb'
      have hk : k0 = k1 := by
        by_contra hne
        have h0 := h k0
        have h1 := h k1
        simp only [db_get, if_true] at h0 h1
        rw [if_neg (Ne.symm hne)] at h0
        rw [if_neg hne] at h1
        have m0 : (k0, v0) ∈ tl' := db_get_some_mem _ _ _ h0.symm
        have m1 : (k1, v1) ∈ tl := db_get_some_mem _ _ _ h1
        have l0 := hb'.1 _ m0
        have l1 := ha'.1 _ m1
        have := keyLt_asymm _ _ l0
        simp only at l1 this
        rw [l1] at this
        exact Bool.noConfusion this
      subst hk
      have hv : v0 = v1 := by
        have h0 := h k0
        simpa [db_get] using h0
      subst hv
      congr 1
      apply ih tl' ha'.2 hb'.2
      intro k
      by_cases hk : k0 = k
      · subst hk
        rw [db_get_none_of_not_mem tl k0 (fun p hp => Ne.symm (keyLt_ne _ _ (ha'.1 p hp))),
          db_get_none_of_not_mem tl' k0 (fun p hp => Ne.symm (keyLt_ne _ _ (hb'.1 p hp)))]
      · have := h k
        simpa [db_get, hk] using this


/-! ### Paths and the file system -/

theorem old_suffix_ne_nil : old_suffix ≠ [] := by decide

theorem snapshot_suffix_ne_nil : snapshot_suffix ≠ [] := by decide

theorem snapshot_suffix_ne_old : snapshot_suffix ≠ old_suffix := by decide

theorem snapshot_path_ne (m : Bytes) : m ++ snapshot_suffix ≠ m := by
  intro h
  have := congrArg List.length h
  simp [snapshot_suffix, ascii] at this

theorem old_path_ne (m : Bytes) : m ++ old_suffix ≠ m := by
  intro h
  have := congrArg List.length h
  simp [old_suffix, ascii] at this

theorem fs_write_same (fs : FileSystem) (p : Bytes) (f : File) : fs_write fs p f p = some f := by
  simp [fs_write]

theorem fs_write_other (fs : FileSystem) (p q : Bytes) (f : File) (h : q ≠ p) :
    fs_write fs p f q = fs q := by
  simp [fs_write, h]

theorem fs_write_write (fs : FileSystem) (p : Bytes) (f g : File) :
    fs_write (fs_write fs p f) p g = fs_write fs p g := by
  funext q
  by_cases h : q = p <;> simp [fs_write, h]

theorem fs_write_self (fs : FileSystem) (p : Bytes) (f : File) (h : fs p = some f) :
    fs_write fs p f = fs := by
  funext q
  by_cases hq : q = p
  · subst hq; simp [fs_write, h]
  · simp [fs_write, hq]

/-! ### Engine calls on an open store -/

theorem eng_set_loaded (env : Env) (s : State) (r : Records) (c : Nat) (k v : Bytes) :
    eng_set env (loaded_with s r c) k v =
      (env.set_ok k v, loaded_with s (if env.set_ok k v then db_set k v r else r) (c + 1)) := by
  cases h : env.set_ok k v <;>
    simp [eng_set, loaded_with, fs_write_same, fs_write_write, touch, h]

theorem TreeDb_CreateMetadata_loaded (env : Env) (s : State) (r : Records) (c : Nat) :
    ∃ l c', (TreeDb.CreateMetadata env (loaded_with s r c)).2 = loaded_with s (db_load l r) c' ∧
      (TreeDb.CreateMetadata env (loaded_with s r c)).1 =
        decide (l = [(db_name_key, s.name_), (rime_version_key, env.rime_version)]) ∧
      (∀ p ∈ l, p ∈ [(db_name_key, s.name_), (rime_version_key, env.rime_version)]) ∧
      ((∀ k v, env.set_ok k v = true) →
        l = [(db_name_key, s.name_), (rime_version_key, env.rime_version)]) := by
  simp only [TreeDb.CreateMetadata, eng_set_loaded]
  have hn : (loaded_with s r c).name_ = s.name_ := rfl
  rw [hn]
  cases h1 : env.set_ok db_name_key s.name_
  · refine ⟨[], c + 1, ?_⟩
    simp [db_load, h1]
    exact ⟨_, _, h1⟩
  · cases h2 : env.set_ok rime_version_key env.rime_version
    · refine ⟨[(db_name_key, s.name_)], c + 2, ?_⟩
      simp [db_load, h2, eng_set_loaded]
      exact ⟨_, _, h2⟩
    · refine ⟨[(db_name_key, s.name_), (rime_version_key, env.rime_version)], c + 2, ?_⟩
      simp [db_load, h2, eng_set_loaded]


theorem CreateMetadata_loaded (env : Env) (s : State) (r : Records) (c : Nat) :
    ∃ l c', (CreateMetadata env (loaded_with s r c)).2 = loaded_with s (db_load l r) c' ∧
      (∀ p ∈ l, p ∈ metadata_block env s) ∧
      ((∀ k v, env.set_ok k v = true) → l = metadata_block env s) := by
  obtain ⟨l, c', h1, h2, h3, h4⟩ := TreeDb_CreateMetadata_loaded env s r c
  have hu : (loaded_with s r c).user_db = s.user_db := rfl
  cases hud : s.user_db
  · refine ⟨l, c', ?_, ?_, ?_⟩
    · simp [CreateMetadata, hu, hud, h1]
    · intro p hp; simpa [metadata_block, hud] using h3 p hp
    · intro h; simpa [metadata_block, hud] using h4 h
  · simp only [CreateMetadata, hu, hud, if_true, UserDb.CreateMetadata, h1, h2]
    by_cases hl : l = [(db_name_key, s.name_), (rime_version_key, env.rime_version)]
    · simp only [hl, decide_True, if_true, eng_set_loaded]
      cases h5 : env.set_ok db_type_key (ascii "userdb")
      · refine ⟨l, c' + 1, ?_, ?_, ?_⟩
        · simp [hl]
        · intro p hp; rw [hl] at hp; simp [metadata_block, hud]; simp at hp; tauto
        · intro h; have := h db_type_key (ascii "userdb"); simp [h5] at this
      · cases h6 : env.set_ok user_id_key env.user_id
        · refine ⟨l ++ [(db_type_key, ascii "userdb")], c' + 2, ?_, ?_, ?_⟩
          · simp [hl, db_load]
          · intro p hp; rw [hl] at hp; simp [metadata_block, hud]; simp at hp; tauto
          · intro h; have := h user_id_key env.user_id; simp [h6] at this
        · refine ⟨l ++ [(db_type_key, ascii "userdb"), (user_id_key, env.user_id)], c' + 2,
            ?_, ?_, ?_⟩
          · simp [hl, db_load]
          · intro p hp; rw [hl] at hp; simp [metadata_block, hud]; simp at hp; tauto
          · intro _; simp [metadata_block, hud, hl]
    · refine ⟨l, c', ?_, ?_, ?_⟩
      · simp [hl]
      · intro p hp; have := h3 p hp; simp [metadata_block, hud]; simp at this; tauto
      · intro h; exact absurd (h4 h) hl

/-! ### Steps of `Open` and `RecoverFromSnapshot` -/

theorem eng_get_loaded (s : State) (r : Records) (c : Nat) (k : Bytes) :
    eng_get (loaded_with s r c) k = (db_get k r, loaded_with s r (c + 1)) := by
  simp [eng_get, loaded_with, fs_write_same, touch]

theorem open_state_ok (env : Env) (s : State) (recs : Records) (hl : s.loaded_ = false)
    (hok : env.open_ok s.file_name_ (s.fs s.file_name_) = true)
    (hfile : s.fs s.file_name_ = some (File.tree recs) ∨ (s.fs s.file_name_ = none ∧ recs = [])) :
    eng_open env (Initialize s) true =
      (true, { loaded_with s recs (s.engine_calls + 2) with loaded_ := false }) := by
  rcases hfile with h | ⟨h, hr⟩
  · rw [h] at hok
    simp [eng_open, Initialize, touch, hok, h, loaded_with, hl, fs_write_self]
  · subst hr
    rw [h] at hok
    simp [eng_open, Initialize, touch, hok, h, loaded_with, hl]

theorem Open_success (env : Env) (s : State) (n : Nat) (recs : Records)
    (hl : s.loaded_ = false)
    (hok : env.open_ok s.file_name_ (s.fs s.file_name_) = true)
    (hfile : s.fs s.file_name_ = some (File.tree recs) ∨ (s.fs s.file_name_ = none ∧ recs = [])) :
    ∃ l c, Open env (n + 1) s = some (Outcome.returned true (loaded_with s (db_load l recs) c)) ∧
      (db_get db_name_key recs ≠ none → l = []) ∧
      (db_get db_name_key recs = none →
        (∀ p ∈ l, p ∈ metadata_block env s) ∧
        ((∀ k v, env.set_ok k v = true) → l = metadata_block env s)) := by
  have h1 := open_state_ok env s recs hl hok hfile
  have h2 : ({ loaded_with s recs (s.engine_calls + 2) with loaded_ := true } : State) =
      loaded_with s recs (s.engine_calls + 2) := rfl
  simp only [Open, hl, h1, h2, Fetch, eng_get_loaded]
  cases hg : db_get db_name_key recs with
  | some x =>
    refine ⟨[], s.engine_calls + 3, ?_, ?_, ?_⟩
    · simp [loaded_with, db_load]
    · intro _; rfl
    · intro h; simp at h
  | none =>
    obtain ⟨l, c', e1, e2, e3⟩ := CreateMetadata_loaded env s recs (s.engine_calls + 2 + 1)
    refine ⟨l, c', ?_, ?_, ?_⟩
    · simp only [Bool.false_eq_true, if_false, if_true, Bool.not_true, e1]
      rfl
    · intro h; simp at h
    · intro _; exact ⟨e2, e3⟩

theorem eng_open_fails (env : Env) (s : State) (h : (eng_open env s true).1 = false) :
    eng_open env (Initialize s) true = (false, touch (Initialize s)) := by
  have e1 : (Initialize s).fs = s.fs := rfl
  have e2 : (Initialize s).file_name_ = s.file_name_ := rfl
  unfold eng_open at h ⊢
  simp only [e1, e2]
  split
  · rename_i hok
    rw [if_pos hok] at h
    split
    · rename_i hf; rw [hf] at h; simp at h
    · rename_i hf; rw [hf] at h; simp at h
    · rfl
  · rfl

theorem Open_of_open_fails (env : Env) (s : State) (n : Nat) (hl : s.loaded_ = false)
    (h : (eng_open env s true).1 = false) :
    Open env (n + 1) s =
      (RecoverFromSnapshot env n (after_failed_open s)).map Outcome.of_recovery := by
  have e : ({ touch (Initialize s) with loaded_ := false } : State) = after_failed_open s := by
    simp [touch, Initialize, after_failed_open, hl]
  simp only [Open, hl, eng_open_fails env s h, e]
  cases RecoverFromSnapshot env n (after_failed_open s) with
  | none => simp
  | some r => cases r <;> simp [Outcome.of_recovery]

theorem Recover_step (env : Env) (s s2 : State) (n : Nat) (hl : s.loaded_ = false)
    (hsnap : (s.fs (s.file_name_ ++ snapshot_suffix)).isSome = true)
    (h : set_aside env s = Outcome.returned true s2) :
    RecoverFromSnapshot env (n + 1) s =
      match Open env n s2 with
      | none => none
      | some (Outcome.thrown s3) => some (Outcome.thrown s3)
      | some (Outcome.returned false s3) => some (Outcome.returned false s3)
      | some (Outcome.returned true s3) =>
        some (Outcome.returned (Restore env s3 (s.file_name_ ++ snapshot_suffix)).1
          (Restore env s3 (s.file_name_ ++ snapshot_suffix)).2) := by
  obtain ⟨f, hf⟩ := Option.isSome_iff_exists.1 hsnap
  simp [RecoverFromSnapshot, fs_exists, hl, hf, h]

theorem set_aside_ok (env : Env) (s : State) (f : File) (hl : s.loaded_ = false)
    (hmain : s.fs s.file_name_ = some f)
    (hmove : env.rename_ok s.file_name_ (s.file_name_ ++ old_suffix) = true ∨
      env.unlink_ok s.file_name_ = true) :
    ∃ fs2, set_aside env s = Outcome.returned true { s with fs := fs2 } ∧
      fs2 s.file_name_ = none ∧
      fs2 (s.file_name_ ++ snapshot_suffix) = s.fs (s.file_name_ ++ snapshot_suffix) ∧
      (env.rename_ok s.file_name_ (s.file_name_ ++ old_suffix) = true →
        fs2 = fs_rename s.fs s.file_name_ (s.file_name_ ++ old_suffix)) := by
  cases hr : env.rename_ok s.file_name_ (s.file_name_ ++ old_suffix)
  · have hu : env.unlink_ok s.file_name_ = true := by
      rcases hmove with h | h
      · rw [hr] at h; exact Bool.noConfusion h
      · exact h
    refine ⟨fs_erase s.fs s.file_name_, ?_, ?_, ?_, ?_⟩
    · simp [set_aside, Exists, fs_exists, hmain, hr, Remove, hl, hu]
    · simp [fs_erase]
    · simp [fs_erase, snapshot_path_ne, show snapshot_suffix ≠ [] by decide]
    · intro h; exact Bool.noConfusion h
  · refine ⟨fs_rename s.fs s.file_name_ (s.file_name_ ++ old_suffix), ?_, ?_, ?_, ?_⟩
    · simp [set_aside, Exists, fs_exists, hmain, hr]
    · simp [fs_rename, (old_path_ne s.file_name_).symm]
    · simp [fs_rename, show snapshot_suffix ≠ [] by decide,
        show snapshot_suffix ≠ old_suffix by decide]
    · intro _; rfl

theorem Restore_loaded_ok (env : Env) (s : State) (r dump : Records) (c : Nat) (p : Bytes)
    (hp : p ≠ s.file_name_) (hg : s.fs p = some (File.snapshot dump))
    (hlo : env.load_ok p = true) :
    Restore env (loaded_with s r c) p = (true, loaded_with s (db_load dump r) (c + 1)) := by
  simp [Restore, eng_load_snapshot, loaded_with, fs_write_same, fs_write_write, touch,
    fs_write_other _ _ _ _ hp, hg, hlo]

theorem Restore_loaded_fail (env : Env) (s : State) (r : Records) (c : Nat) (p : Bytes)
    (g : File) (hp : p ≠ s.file_name_) (hg : s.fs p = some g)
    (hlo : env.load_ok p = false ∨ ∀ d, g ≠ File.snapshot d) :
    Restore env (loaded_with s r c) p = (false, loaded_with s r (c + 1)) := by
  cases g with
  | snapshot dump =>
    rcases hlo with h | h
    · simp [Restore, eng_load_snapshot, loaded_with, fs_write_same, fs_write_write, touch,
        fs_write_other _ _ _ _ hp, hg, h]
    · exact absurd rfl (h dump)
  | tree x =>
    simp [Restore, eng_load_snapshot, loaded_with, fs_write_same, touch,
      fs_write_other _ _ _ _ hp, hg]
  | other x =>
    simp [Restore, eng_load_snapshot, loaded_with, fs_write_same, touch,
      fs_write_other _ _ _ _ hp, hg]

/-! ### Recovery -/

theorem main_exists_of_open_fails (env : Env) (s : State)
    (hfail : (eng_open env s true).1 = false)
    (hfresh : env.open_ok s.file_name_ none = true) : ∃ f, s.fs s.file_name_ = some f := by
  cases h : s.fs s.file_name_ with
  | some f => exact ⟨f, rfl⟩
  | none => simp [eng_open, h, hfresh] at hfail

theorem recovery_run (env : Env) (s : State) (n : Nat) (f0 g : File)
    (hl : s.loaded_ = false) (hmain : s.fs s.file_name_ = some f0)
    (hsnap : s.fs (s.file_name_ ++ snapshot_suffix) = some g)
    (hmove : env.rename_ok s.file_name_ (s.file_name_ ++ old_suffix) = true ∨
      env.unlink_ok s.file_name_ = true)
    (hfresh : env.open_ok s.file_name_ none = true) :
    ∃ fs2 l c, fs2 s.file_name_ = none ∧ fs2 (s.file_name_ ++ snapshot_suffix) = some g ∧
      (env.rename_ok s.file_name_ (s.file_name_ ++ old_suffix) = true →
        fs2 = fs_rename s.fs s.file_name_ (s.file_name_ ++ old_suffix)) ∧
      (∀ p ∈ l, p ∈ metadata_block env s) ∧
      ((∀ k v, env.set_ok k v = true) → l = metadata_block env s) ∧
      RecoverFromSnapshot env (n + 2) s =
        some (Outcome.returned
          (Restore env (loaded_with { s with fs := fs2 } (db_load l []) c)
            (s.file_name_ ++ snapshot_suffix)).1
          (Restore env (loaded_with { s with fs := fs2 } (db_load l []) c)
            (s.file_name_ ++ snapshot_suffix)).2) := by
  obtain ⟨fs2, h1, h2, h3, h4⟩ := set_aside_ok env s f0 hl hmain hmove
  have hs : (s.fs (s.file_name_ ++ snapshot_suffix)).isSome = true := by simp [hsnap]
  obtain ⟨l, c, e1, _, e3⟩ := Open_success env { s with fs := fs2 } n [] hl
    (by simp [h2, hfresh]) (Or.inr ⟨h2, rfl⟩)
  have hnone : db_get db_name_key ([] : Records) = none := rfl
  refine ⟨fs2, l, c, h2, by rw [h3, hsnap], h4, (e3 hnone).1, (e3 hnone).2, ?_⟩
  rw [Recover_step env s _ (n + 1) hl hs h1, e1]

theorem stuck_when_absent (env : Env) (n : Nat) : ∀ s : State, s.loaded_ = false →
    s.fs s.file_name_ = none → (s.fs (s.file_name_ ++ snapshot_suffix)).isSome = true →
    (∀ f, env.open_ok s.file_name_ f = false) → env.stat_ok s.file_name_ = true →
    Open env n s = none ∧ RecoverFromSnapshot env n s = none := by
  induction n with
  | zero => intro s _ _ _ _ _; exact ⟨rfl, rfl⟩
  | succ n ih =>
    intro s hl hmain hsnap hopen hstat
    have hfail : (eng_open env s true).1 = false := by simp [eng_open, hopen]
    constructor
    · rw [Open_of_open_fails env s n hl hfail]
      rw [(ih (after_failed_open s) hl hmain hsnap hopen hstat).2]
      rfl
    · have hA : set_aside env s = Outcome.returned true s := by
        simp [set_aside, Exists, fs_exists, hmain, hstat]
      rw [Recover_step env s s n hl hsnap hA, (ih s hl hmain hsnap hopen hstat).1]

theorem recovery_never_returns (env : Env) (s : State) (hl : s.loaded_ = false)
    (hsnap : (s.fs (s.file_name_ ++ snapshot_suffix)).isSome = true)
    (hopen : ∀ f, env.open_ok s.file_name_ f = false)
    (hren : env.rename_ok s.file_name_ (s.file_name_ ++ old_suffix) = true)
    (hstat : env.stat_ok s.file_name_ = true) :
    ∀ n, Open env n s = none := by
  intro n
  cases hmain : s.fs s.file_name_ with
  | none => exact (stuck_when_absent env n s hl hmain hsnap hopen hstat).1
  | some f0 =>
    cases n with
    | zero => rfl
    | succ n =>
      have hfail : (eng_open env s true).1 = false := by simp [eng_open, hopen]
      rw [Open_of_open_fails env s n hl hfail]
      cases n with
      | zero => rfl
      | succ n =>
        obtain ⟨fs2, h1, h2, h3, _⟩ := set_aside_ok env (after_failed_open s) f0 hl hmain
          (Or.inl hren)
        rw [Recover_step env (after_failed_open s) _ n hl hsnap h1]
        have := (stuck_when_absent env n { after_failed_open s with fs := fs2 } hl h2
          (by
            have e : fs2 ((after_failed_open s).file_name_ ++ snapshot_suffix) =
                s.fs (s.file_name_ ++ snapshot_suffix) := h3
            simp only [e]; exact hsnap) hopen hstat).1
        rw [this]
        rfl

/-- C3 (the code at the failing input). With a snapshot present and an engine that
cannot open the main path, `Open` on the closed store never returns: for every bound
on the depth of the calls `Open -> RecoverFromSnapshot -> Open` the bound is
reached. -/
theorem open_recursion_unbounded : ∀ n, Open stuck_env n stuck = none :=
  recovery_never_returns stuck_env stuck rfl (by decide) (fun _ => rfl) rfl rfl

theorem mem_db_load (l r : Records) (p : Record) (h : p ∈ db_load l r) : p ∈ l ∨ p ∈ r := by
  induction l generalizing r with
  | nil => exact Or.inr (by simpa [db_load] using h)
  | cons hd tl ih =>
    simp only [db_load, List.foldl_cons] at h
    rcases ih (db_set hd.1 hd.2 r) (by simpa [db_load] using h) with h1 | h1
    · exact Or.inl (List.mem_cons_of_mem _ h1)
    · rcases db_set_keys _ _ _ _ h1 with h2 | h2
      · exact Or.inl (by rw [h2]; exact List.mem_cons_self _ _)
      · exact Or.inr h2

/-- C2 (amended). When the engine cannot open the main file of a closed store, a
snapshot file exists, the main file can be moved aside and the fresh open succeeds,
but loading the snapshot fails, then `RecoverFromSnapshot` reports false while
`Open` returns true: the store is left loaded on the fresh database, whose records
are all records of the metadata block stamped by the nested `Open` (the whole block
when the engine writes succeed; a failed load is taken to write nothing), and the
snapshot file is as it was. -/
theorem failed_restore_leaves_store_loaded (env : Env) (s : State) (n : Nat) (g : File)
    (hl : s.loaded_ = false)
    (hfail : (eng_open env s true).1 = false)
    (hsnap : s.fs (s.file_name_ ++ snapshot_suffix) = some g)
    (hmove : env.rename_ok s.file_name_ (s.file_name_ ++ old_suffix) = true ∨
      env.unlink_ok s.file_name_ = true)
    (hfresh : env.open_ok s.file_name_ none = true)
    (hload : env.load_ok (s.file_name_ ++ snapshot_suffix) = false ∨
      ∀ d, g ≠ File.snapshot d) :
    ∃ s' recs,
      RecoverFromSnapshot env (n + 2) (after_failed_open s) = some (Outcome.returned false s') ∧
      Open env (n + 3) s = some (Outcome.returned true s') ∧ s'.loaded_ = true ∧
      content s' = some recs ∧
      (∀ p, p ∈ recs → p ∈ metadata_block env s) ∧
      ((∀ k v, env.set_ok k v = true) → recs = db_load (metadata_block env s) []) ∧
      s'.fs (s.file_name_ ++ snapshot_suffix) = some g := by
  obtain ⟨f0, hmain⟩ := main_exists_of_open_fails env s hfail hfresh
  obtain ⟨fs2, l, c, h1, h2, _, h4, h5, h6⟩ :=
    recovery_run env (after_failed_open s) n f0 g hl hmain hsnap hmove hfresh
  have hR := Restore_loaded_fail env { after_failed_open s with fs := fs2 } (db_load l []) c
    (s.file_name_ ++ snapshot_suffix) g (snapshot_path_ne _) h2 hload
  have h6 := h6.trans
    (congrArg (fun r : Bool × State => some (Outcome.returned r.1 r.2)) hR)
  refine ⟨loaded_with { after_failed_open s with fs := fs2 } (db_load l []) (c + 1),
    db_load l [], h6, ?_, rfl, ?_, ?_, ?_, ?_⟩
  · rw [Open_of_open_fails env s (n + 2) hl hfail, h6]
    rfl
  · simp [content, loaded_with, after_failed_open, fs_write]
  · intro p hp
    rcases mem_db_load _ _ _ hp with h | h
    · exact h4 p h
    · simp at h
  · intro hall
    rw [h5 hall]
    rfl
  · have e : (after_failed_open s).file_name_ = s.file_name_ := rfl
    rw [e] at h2
    simp [loaded_with, after_failed_open, fs_write, snapshot_suffix_ne_nil, h2]

/-- C2 (witness). A closed store whose main file and snapshot file are both unusable. -/
theorem failed_restore_leaves_store_loaded_witness :
    broken.loaded_ = false ∧ (eng_open demo_env broken true).1 = false ∧
    broken.fs (broken.file_name_ ++ snapshot_suffix) = some (File.other [1]) ∧
    (∀ k v, demo_env.set_ok k v = true) ∧
    ∃ s' recs,
      RecoverFromSnapshot demo_env 2 (after_failed_open broken) =
        some (Outcome.returned false s') ∧
      Open demo_env 3 broken = some (Outcome.returned true s') ∧ s'.loaded_ = true ∧
      content s' = some recs ∧
      (∀ p, p ∈ recs → p ∈ metadata_block demo_env broken) ∧
      ((∀ k v, demo_env.set_ok k v = true) →
        recs = db_load (metadata_block demo_env broken) []) ∧
      s'.fs (broken.file_name_ ++ snapshot_suffix) = some (File.other [1]) :=
  ⟨rfl, by decide, by decide, fun _ _ => rfl,
    failed_restore_leaves_store_loaded demo_env broken 0 (File.other [1]) rfl (by decide)
      (by decide) (Or.inl rfl) rfl (Or.inr (fun d h => File.noConfusion h))⟩

/-- C2 (counterexample). The main file cannot be opened, a snapshot file exists, the
fresh re-open succeeds and loading the snapshot fails (`RecoverFromSnapshot` reports
false), yet `Open` returns true. -/
theorem failed_restore_open_returns_true :
    (eng_open demo_env broken true).1 = false ∧
    (broken.fs (broken.file_name_ ++ snapshot_suffix)).isSome = true ∧
    (RecoverFromSnapshot demo_env 2 (after_failed_open broken)).map Outcome.value =
      some (some false) ∧
    (Open demo_env 3 broken).map Outcome.value = some (some true) ∧
    ¬ (Open demo_env 3 broken).map Outcome.value = some (some false) := by
  decide

/-- C6. When the engine cannot open the existing main file of a closed store, a
snapshot exists, the rename to `.old`, the fresh open and the snapshot load succeed,
then `Open` returns true with the store loaded; `.old` holds the former main file,
the snapshot file and every other file are unchanged, and the main file is a tree
database in key order that holds every record of the snapshot and otherwise only
records of the metadata block of the fresh store (with all engine writes succeeding:
the snapshot loaded over the full metadata block). -/
theorem recovery_preserves_corrupt_file (env : Env) (s : State) (n : Nat) (f0 : File)
    (dump : Records)
    (hl : s.loaded_ = false)
    (hmain : s.fs s.file_name_ = some f0)
    (hfail : (eng_open env s true).1 = false)
    (hsnap : s.fs (s.file_name_ ++ snapshot_suffix) = some (File.snapshot dump))
    (hasc : Ascending dump)
    (hren : env.rename_ok s.file_name_ (s.file_name_ ++ old_suffix) = true)
    (hfresh : env.open_ok s.file_name_ none = true)
    (hload : env.load_ok (s.file_name_ ++ snapshot_suffix) = true) :
    ∃ s' recs, Open env (n + 3) s = some (Outcome.returned true s') ∧ s'.loaded_ = true ∧
      s'.fs (s.file_name_ ++ old_suffix) = some f0 ∧
      s'.fs (s.file_name_ ++ snapshot_suffix) = some (File.snapshot dump) ∧
      s'.fs s.file_name_ = some (File.tree recs) ∧
      (∀ q, q ≠ s.file_name_ → q ≠ s.file_name_ ++ old_suffix → s'.fs q = s.fs q) ∧
      Ascending recs ∧
      (∀ k v, (k, v) ∈ dump → db_get k recs = some v) ∧
      (∀ p, p ∈ recs → p ∈ dump ∨ p ∈ metadata_block env s) ∧
      ((∀ k v, env.set_ok k v = true) →
        recs = db_load dump (db_load (metadata_block env s) [])) := by
  obtain ⟨fs2, l, c, h1, h2, h3, h4, h5, h6⟩ :=
    recovery_run env (after_failed_open s) n f0 (File.snapshot dump) hl hmain hsnap
      (Or.inl hren) hfresh
  have hR := Restore_loaded_ok env { after_failed_open s with fs := fs2 } (db_load l []) dump c
    (s.file_name_ ++ snapshot_suffix) (snapshot_path_ne _) h2 hload
  have h6 := h6.trans
    (congrArg (fun r : Bool × State => some (Outcome.returned r.1 r.2)) hR)
  have hfs : fs2 = fs_rename s.fs s.file_name_ (s.file_name_ ++ old_suffix) := h3 hren
  refine ⟨loaded_with { after_failed_open s with fs := fs2 } (db_load dump (db_load l []))
    (c + 1), db_load dump (db_load l []), ?_, rfl, ?_, ?_, ?_, ?_, ?_, ?_, ?_, ?_⟩
  · rw [Open_of_open_fails env s (n + 2) hl hfail, h6]
    rfl
  · simp [loaded_with, after_failed_open, fs_write, old_suffix_ne_nil, hfs, fs_rename, hmain]
  · simp [loaded_with, after_failed_open, fs_write, snapshot_suffix_ne_nil, hfs, fs_rename,
      snapshot_suffix_ne_old, hsnap]
  · simp [loaded_with, after_failed_open, fs_write]
  · intro q hq1 hq2
    simp [loaded_with, after_failed_open, fs_write, hfs, fs_rename, hq1, hq2]
  · exact ascending_load _ _ (ascending_load _ _ (by simp [Ascending]))
  · intro k v hkv
    exact db_get_load_mem _ _ _ _ hasc hkv
  · intro p hp
    rcases mem_db_load _ _ _ hp with h | h
    · exact Or.inl h
    · rcases mem_db_load _ _ _ h with h' | h'
      · exact Or.inr (h4 p h')
      · simp at h'
  · intro hall
    rw [h5 hall]
    rfl

/-- C6 (witness). A closed store with an unusable main file and a snapshot of two records. -/
theorem recovery_preserves_corrupt_file_witness :
    recoverable.loaded_ = false ∧
    recoverable.fs recoverable.file_name_ = some (File.other [0]) ∧
    (eng_open demo_env recoverable true).1 = false ∧
    ∃ s' recs, Open demo_env 3 recoverable = some (Outcome.returned true s') ∧ s'.loaded_ = true ∧
      s'.fs (recoverable.file_name_ ++ old_suffix) = some (File.other [0]) ∧
      s'.fs (recoverable.file_name_ ++ snapshot_suffix) =
        some (File.snapshot [(ascii "a1", ascii "v1"), (ascii "b1", ascii "v3")]) ∧
      s'.fs recoverable.file_name_ = some (File.tree recs) ∧
      (∀ q, q ≠ recoverable.file_name_ → q ≠ recoverable.file_name_ ++ old_suffix →
        s'.fs q = recoverable.fs q) ∧
      Ascending recs ∧
      (∀ k v, (k, v) ∈ [(ascii "a1", ascii "v1"), (ascii "b1", ascii "v3")] →
        db_get k recs = some v) ∧
      (∀ p, p ∈ recs → p ∈ [(ascii "a1", ascii "v1"), (ascii "b1", ascii "v3")] ∨
        p ∈ metadata_block demo_env recoverable) ∧
      ((∀ k v, demo_env.set_ok k v = true) →
        recs = db_load [(ascii "a1", ascii "v1"), (ascii "b1", ascii "v3")]
          (db_load (metadata_block demo_env recoverable) [])) :=
  ⟨rfl, by decide, by decide,
    recovery_preserves_corrupt_file demo_env recoverable 0 (File.other [0])
      [(ascii "a1", ascii "v1"), (ascii "b1", ascii "v3")] rfl (by decide) (by decide)
      (by decide) (by decide) rfl rfl rfl⟩

/-! ### Metadata -/

theorem db_get_load_of_mem (l r : Records) (k v : Bytes)
    (hl : l.Pairwise (fun a b => a.1 ≠ b.1)) (h : (k, v) ∈ l) :
    db_get k (db_load l r) = some v := by
  induction l generalizing r with
  | nil => simp at h
  | cons hd tl ih =>
    rw [List.pairwise_cons] at hl
    simp only [db_load, List.foldl_cons]
    rcases List.mem_cons.1 h with h | h
    · subst h
      have h1 := db_get_load_other tl (db_set k v r) k (fun p hp => Ne.symm (hl.1 p hp))
      simp only [db_load] at h1
      rw [h1]
      exact db_get_set_same _ _ _
    · have h1 := ih (db_set hd.1 hd.2 r) hl.2 h
      simpa [db_load] using h1

theorem metadata_block_keys (env : Env) (s : State) :
    (metadata_block env s).Pairwise (fun a b => a.1 ≠ b.1) := by
  have h1 : db_name_key ≠ rime_version_key := by decide
  have h2 : db_name_key ≠ db_type_key := by decide
  have h3 : db_name_key ≠ user_id_key := by decide
  have h4 : rime_version_key ≠ db_type_key := by decide
  have h5 : rime_version_key ≠ user_id_key := by decide
  have h6 : db_type_key ≠ user_id_key := by decide
  cases h : s.user_db <;> simp [metadata_block, h, h1, h2, h3, h4, h5, h6]

theorem OpenReadOnly_fs (env : Env) (s : State) : (OpenReadOnly env s).2.fs = s.fs := by
  unfold OpenReadOnly
  split
  · rfl
  · simp only [eng_open, Initialize, touch]
    split
    · split <;> simp
    · rfl

/-- C8. For a closed store whose main file the engine opens (an existing tree
database, or an absent file, created empty): `OpenReadOnly` leaves the file system
as it is; `Open` returns true with the store loaded and touches no other file; if
`db_name` is present the records are unchanged; if it is absent and the engine
writes succeed, the records are the former ones with the metadata block written
over them: `db_name` and `rime_version`, for a user database also `db_type` =
"userdb" and `user_id` = the user id of the deployer, every other key as before. -/
theorem metadata_stamped_once (env : Env) (s : State) (n : Nat) (recs : Records)
    (hl : s.loaded_ = false)
    (hok : env.open_ok s.file_name_ (s.fs s.file_name_) = true)
    (hfile : s.fs s.file_name_ = some (File.tree recs) ∨
      (s.fs s.file_name_ = none ∧ recs = [])) :
    (OpenReadOnly env s).2.fs = s.fs ∧
    ∃ s' recs', Open env (n + 1) s = some (Outcome.returned true s') ∧ s'.loaded_ = true ∧
      s'.fs s.file_name_ = some (File.tree recs') ∧
      (∀ q, q ≠ s.file_name_ → s'.fs q = s.fs q) ∧
      (db_get db_name_key recs ≠ none → recs' = recs) ∧
      (db_get db_name_key recs = none → (∀ k v, env.set_ok k v = true) →
        recs' = db_load (metadata_block env s) recs ∧
        db_get db_name_key recs' = some s.name_ ∧
        db_get rime_version_key recs' = some env.rime_version ∧
        (s.user_db = true →
          db_get db_type_key recs' = some (ascii "userdb") ∧
          db_get user_id_key recs' = some env.user_id) ∧
        (s.user_db = false →
          db_get db_type_key recs' = db_get db_type_key recs ∧
          db_get user_id_key recs' = db_get user_id_key recs) ∧
        (∀ k, (∀ p ∈ metadata_block env s, p.1 ≠ k) → db_get k recs' = db_get k recs)) := by
  refine ⟨OpenReadOnly_fs env s, ?_⟩
  obtain ⟨l, c, h1, h2, h3⟩ := Open_success env s n recs hl hok hfile
  refine ⟨_, db_load l recs, h1, rfl, by simp [loaded_with, fs_write], ?_, ?_, ?_⟩
  · intro q hq; simp [loaded_with, fs_write, hq]
  · intro h; rw [h2 h]; rfl
  · intro h hall
    have hlm : l = metadata_block env s := (h3 h).2 hall
    have hk := metadata_block_keys env s
    subst hlm
    refine ⟨rfl, ?_, ?_, ?_, ?_, ?_⟩
    · exact db_get_load_of_mem _ _ _ _ hk (by simp [metadata_block])
    · exact db_get_load_of_mem _ _ _ _ hk (by simp [metadata_block])
    · intro hu
      exact ⟨db_get_load_of_mem _ _ _ _ hk (by simp [metadata_block, hu]),
        db_get_load_of_mem _ _ _ _ hk (by simp [metadata_block, hu])⟩
    · intro hu
      constructor
      · apply db_get_load_other
        intro p hp
        simp [metadata_block, hu] at hp
        rcases hp with hp | hp <;> (rw [hp]; simp only []; decide)
      · apply db_get_load_other
        intro p hp
        simp [metadata_block, hu] at hp
        rcases hp with hp | hp <;> (rw [hp]; simp only []; decide)
    · intro k hk2
      exact db_get_load_other _ _ _ hk2

/-- C8 (witness). A store that already carries `db_name`, and a user store without metadata. -/
theorem metadata_stamped_once_witness :
    (labelled.loaded_ = false ∧
      demo_env.open_ok labelled.file_name_ (labelled.fs labelled.file_name_) = true ∧
      db_get db_name_key [(db_name_key, ascii "bob"), (ascii "a1", ascii "v1")] ≠ none ∧
      (OpenReadOnly demo_env labelled).2.fs = labelled.fs ∧
      ∃ s', Open demo_env 1 labelled = some (Outcome.returned true s') ∧
        s'.fs labelled.file_name_ =
          some (File.tree [(db_name_key, ascii "bob"), (ascii "a1", ascii "v1")])) ∧
    (unlabelled_user.loaded_ = false ∧ unlabelled_user.user_db = true ∧
      db_get db_name_key [(ascii "a1", ascii "v1")] = none ∧
      (∀ k v, demo_env.set_ok k v = true) ∧
      ∃ s' recs', Open demo_env 1 unlabelled_user = some (Outcome.returned true s') ∧
        s'.fs unlabelled_user.file_name_ = some (File.tree recs') ∧
        recs' = db_load (metadata_block demo_env unlabelled_user) [(ascii "a1", ascii "v1")] ∧
        db_get db_name_key recs' = some unlabelled_user.name_ ∧
        db_get rime_version_key recs' = some demo_env.rime_version ∧
        db_get db_type_key recs' = some (ascii "userdb") ∧
        db_get user_id_key recs' = some demo_env.user_id ∧
        db_get (ascii "a1") recs' = some (ascii "v1")) := by
  constructor
  · have h := metadata_stamped_once demo_env labelled 0
      [(db_name_key, ascii "bob"), (ascii "a1", ascii "v1")] rfl rfl (Or.inl (by decide))
    obtain ⟨h0, s', recs', h1, _, h3, _, h5, _⟩ := h
    have e := h5 (by decide)
    subst e
    exact ⟨rfl, rfl, by decide, h0, s', h1, h3⟩
  · have h := metadata_stamped_once demo_env unlabelled_user 0 [(ascii "a1", ascii "v1")]
      rfl rfl (Or.inl (by decide))
    obtain ⟨_, s', recs', h1, _, h3, _, _, h6⟩ := h
    obtain ⟨e1, e2, e3, e4, _, e6⟩ := h6 (by decide) (fun _ _ => rfl)
    refine ⟨rfl, rfl, by decide, fun _ _ => rfl, s', recs', h1, h3, e1, e2, e3, (e4 rfl).1,
      (e4 rfl).2, ?_⟩
    rw [e6 (ascii "a1") (by decide)]
    decide

/-- C9 (amended). After the first `Open` of a `UserDb` constructed with the name `n`
(`db_name` absent before, engine writes succeeding), `Fetch("\x01/db_name")` returns
`n` followed by ".userdb.kct", the name its `TreeDb` part was constructed with; the
backing file is the user data directory joined with that same name. -/
theorem user_db_name_record (env : Env) (name : Bytes) (fs : FileSystem) (n : Nat)
    (recs : Records)
    (hok : env.open_ok (UserDb.new env name fs).file_name_
      (fs (UserDb.new env name fs).file_name_) = true)
    (hfile : fs (UserDb.new env name fs).file_name_ = some (File.tree recs) ∨
      (fs (UserDb.new env name fs).file_name_ = none ∧ recs = []))
    (habsent : db_get db_name_key recs = none)
    (hset : ∀ k v, env.set_ok k v = true) :
    (UserDb.new env name fs).file_name_ =
      env.path_join env.user_data_dir (name ++ ascii ".userdb.kct") ∧
    ∃ s', Open env (n + 1) (UserDb.new env name fs) = some (Outcome.returned true s') ∧
      (Fetch s' db_name_key).1 = some (name ++ ascii ".userdb.kct") ∧
      (Fetch s' db_name_key).1 ≠ some name := by
  refine ⟨rfl, ?_⟩
  obtain ⟨l, c, h1, _, h3⟩ := Open_success env (UserDb.new env name fs) n recs rfl hok hfile
  have hlm := (h3 habsent).2 hset
  subst hlm
  have hget : db_get db_name_key (db_load (metadata_block env (UserDb.new env name fs)) recs) =
      some (name ++ ascii ".userdb.kct") :=
    db_get_load_of_mem _ _ _ _ (metadata_block_keys env _) (by simp [metadata_block, UserDb.new, TreeDb.new])
  have hF : (Fetch (loaded_with (UserDb.new env name fs)
      (db_load (metadata_block env (UserDb.new env name fs)) recs) c) db_name_key).1 =
      some (name ++ ascii ".userdb.kct") := by
    have : (loaded_with (UserDb.new env name fs)
      (db_load (metadata_block env (UserDb.new env name fs)) recs) c).loaded_ = true := rfl
    simp [Fetch, this, eng_get_loaded, hget]
  refine ⟨_, h1, hF, ?_⟩
  rw [hF]
  intro h
  have := congrArg List.length (Option.some.inj h)
  simp [ascii] at this

/-- C9 (witness). The user store "alice" on an empty file system. -/
theorem user_db_name_record_witness :
    demo_env.open_ok (UserDb.new demo_env (ascii "alice") empty_fs).file_name_
      (empty_fs (UserDb.new demo_env (ascii "alice") empty_fs).file_name_) = true ∧
    (∀ k v, demo_env.set_ok k v = true) ∧
    (UserDb.new demo_env (ascii "alice") empty_fs).file_name_ =
      ascii "/data/alice.userdb.kct" ∧
    ∃ s', Open demo_env 1 (UserDb.new demo_env (ascii "alice") empty_fs) = some (Outcome.returned true s') ∧
      (Fetch s' db_name_key).1 = some (ascii "alice.userdb.kct") ∧
      (Fetch s' db_name_key).1 ≠ some (ascii "alice") :=
  ⟨rfl, fun _ _ => rfl, by decide,
    (user_db_name_record demo_env (ascii "alice") empty_fs 0 [] rfl (Or.inr ⟨rfl, rfl⟩) rfl
      (fun _ _ => rfl)).2⟩

/-- C9 (counterexample). A `UserDb` constructed with the name "alice" and opened for
the first time holds "alice.userdb.kct" under `db_name`, not "alice". -/
theorem user_db_name_is_not_logical_name :
    (Open demo_env 1 (UserDb.new demo_env (ascii "alice") empty_fs)).map
        (fun r => (r.value, (Fetch r.state db_name_key).1)) =
      some (some true, some (ascii "alice.userdb.kct")) ∧
    (Open demo_env 1 (UserDb.new demo_env (ascii "alice") empty_fs)).map
        (fun r => (Fetch r.state db_name_key).1) ≠ some (some (ascii "alice")) := by
  decide

/-! ### Round trip through the snapshot -/

theorem Backup_ok (env : Env) (s : State) (C : Records)
    (hC : s.fs s.file_name_ = some (File.tree C)) (hb : (Backup env s).1 = true) :
    s.loaded_ = true ∧
    Backup env s = (true, touch { s with
      fs := fs_write s.fs (s.file_name_ ++ snapshot_suffix) (File.snapshot C) }) := by
  cases hl : s.loaded_
  · simp [Backup, hl] at hb
  · refine ⟨rfl, ?_⟩
    cases hd : s.db_ <;> cases ho : env.dump_ok (s.file_name_ ++ snapshot_suffix) <;>
      simp [Backup, hl, eng_dump_snapshot, hd, hC, ho] at hb ⊢

theorem round_trip_run (env : Env) (s : State) (n : Nat) (C : Records) (g : File)
    (hC : s.fs s.file_name_ = some (File.tree C))
    (hbackup : (Backup env s).1 = true)
    (hfail : env.open_ok s.file_name_ (some g) = false ∨ ∀ r, g ≠ File.tree r)
    (hmove : env.rename_ok s.file_name_ (s.file_name_ ++ old_suffix) = true ∨
      env.unlink_ok s.file_name_ = true)
    (hfresh : env.open_ok s.file_name_ none = true)
    (hload : env.load_ok (s.file_name_ ++ snapshot_suffix) = true) :
    (Close (Backup env s).2).1 = true ∧
    ∃ s' l, Open env (n + 3) (backed_up_then_corrupted env s g) = some (Outcome.returned true s') ∧
      s'.loaded_ = true ∧ content s' = some (db_load C (db_load l [])) ∧
      (∀ p ∈ l, p ∈ metadata_block env s) := by
  obtain ⟨hl, hB⟩ := Backup_ok env s C hC hbackup
  have hclose : (Close (Backup env s).2).1 = true := by simp [hB, Close, touch, hl]
  refine ⟨hclose, ?_⟩
  have hs3l : (backed_up_then_corrupted env s g).loaded_ = false := by
    simp [backed_up_then_corrupted, hB, Close, touch, hl]
  have hs3f : (backed_up_then_corrupted env s g).file_name_ = s.file_name_ := by
    simp [backed_up_then_corrupted, hB, Close, touch, hl]
  have hs3n : metadata_block env (backed_up_then_corrupted env s g) = metadata_block env s := by
    simp [backed_up_then_corrupted, hB, Close, touch, hl, metadata_block]
  have hs3m : (backed_up_then_corrupted env s g).fs s.file_name_ = some g := by
    simp [backed_up_then_corrupted, fs_write]
  have hs3s : (backed_up_then_corrupted env s g).fs (s.file_name_ ++ snapshot_suffix) =
      some (File.snapshot C) := by
    simp [backed_up_then_corrupted, hB, Close, touch, hl, fs_write, snapshot_suffix_ne_nil]
  have hfail' : (eng_open env (backed_up_then_corrupted env s g) true).1 = false := by
    simp only [eng_open, hs3f, hs3m]
    rcases hfail with h | h
    · simp [h]
    · cases g with
      | tree r => exact absurd rfl (h r)
      | snapshot r => split <;> rfl
      | other r => split <;> rfl
  obtain ⟨fs2, l, c, _, h2, _, h4, _, h6⟩ :=
    recovery_run env (after_failed_open (backed_up_then_corrupted env s g)) n g
      (File.snapshot C) hs3l (by rw [← hs3f] at hs3m; exact hs3m)
      (by rw [← hs3f] at hs3s; exact hs3s) (by rw [← hs3f] at hmove; exact hmove)
      (by rw [← hs3f] at hfresh; exact hfresh)
  have hR := Restore_loaded_ok env
    { after_failed_open (backed_up_then_corrupted env s g) with fs := fs2 } (db_load l []) C c
    ((backed_up_then_corrupted env s g).file_name_ ++ snapshot_suffix) (snapshot_path_ne _) h2
    (by rw [hs3f]; exact hload)
  have h6 := h6.trans
    (congrArg (fun r : Bool × State => some (Outcome.returned r.1 r.2)) hR)
  refine ⟨loaded_with { after_failed_open (backed_up_then_corrupted env s g) with fs := fs2 }
    (db_load C (db_load l [])) (c + 1), l, ?_, rfl, ?_, ?_⟩
  · rw [Open_of_open_fails env _ (n + 2) hs3l hfail', h6]
    rfl
  · simp [content, loaded_with, fs_write]
  · intro p hp
    have := h4 p hp
    have e : metadata_block env (after_failed_open (backed_up_then_corrupted env s g)) =
        metadata_block env (backed_up_then_corrupted env s g) := rfl
    rw [e, hs3n] at this
    exact this

theorem round_trip_corrupted (env : Env) (s : State) (n : Nat) (C : Records)
    (g : File)
    (hC : s.fs s.file_name_ = some (File.tree C))
    (hasc : Ascending C)
    (hbackup : (Backup env s).1 = true)
    (hfail : env.open_ok s.file_name_ (some g) = false ∨ ∀ r, g ≠ File.tree r)
    (hmove : env.rename_ok s.file_name_ (s.file_name_ ++ old_suffix) = true ∨
      env.unlink_ok s.file_name_ = true)
    (hfresh : env.open_ok s.file_name_ none = true)
    (hload : env.load_ok (s.file_name_ ++ snapshot_suffix) = true) :
    (Close (Backup env s).2).1 = true ∧
    ∃ s' recs, Open env (n + 3) (backed_up_then_corrupted env s g) = some (Outcome.returned true s') ∧
      s'.loaded_ = true ∧ content s' = some recs ∧
      (∀ k v, (k, v) ∈ C → db_get k recs = some v) ∧
      (∀ p, p ∈ recs → p ∈ C ∨ p ∈ metadata_block env s) ∧
      ((∀ p ∈ metadata_block env s, db_get p.1 C ≠ none) → recs = C) := by
  obtain ⟨hc, s', l, h1, h2, h3, h4⟩ :=
    round_trip_run env s n C g hC hbackup hfail hmove hfresh hload
  refine ⟨hc, s', _, h1, h2, h3, ?_, ?_, ?_⟩
  · intro k v hkv
    exact db_get_load_mem _ _ _ _ hasc hkv
  · intro p hp
    rcases mem_db_load _ _ _ hp with h | h
    · exact Or.inl h
    · rcases mem_db_load _ _ _ h with h' | h'
      · exact Or.inr (h4 p h')
      · simp at h'
  · intro hmeta
    apply ascending_ext _ _ (ascending_load _ _ (ascending_load _ _ (by simp [Ascending]))) hasc
    intro k
    cases hk : db_get k C with
    | some v => exact db_get_load_mem _ _ _ _ hasc (db_get_some_mem _ _ _ hk)
    | none =>
      have hnC : ∀ p ∈ C, p.1 ≠ k := by
        intro p hp he
        have := db_get_of_mem C p.1 p.2 hasc hp
        rw [he, hk] at this
        exact Option.noConfusion this
      rw [db_get_load_other _ _ _ hnC]
      have hnl : ∀ p ∈ l, p.1 ≠ k := by
        intro p hp he
        have := hmeta p (h4 p hp)
        rw [he] at this
        exact this hk
      rw [db_get_load_other _ _ _ hnl]
      rfl

theorem round_trip_deleted (env : Env) (s : State) (n : Nat) (C : Records)
    (hC : s.fs s.file_name_ = some (File.tree C))
    (hbackup : (Backup env s).1 = true)
    (hfresh : env.open_ok s.file_name_ none = true) :
    ∃ s' recs, Open env (n + 1) (backed_up_then_deleted env s) = some (Outcome.returned true s') ∧
      s'.loaded_ = true ∧ content s' = some recs ∧
      (∀ p, p ∈ recs → p ∈ metadata_block env s) ∧
      ((∀ k v, env.set_ok k v = true) → recs = db_load (metadata_block env s) []) ∧
      s'.fs (s.file_name_ ++ snapshot_suffix) = some (File.snapshot C) := by
  obtain ⟨hl, hB⟩ := Backup_ok env s C hC hbackup
  have hdl : (backed_up_then_deleted env s).loaded_ = false := by
    simp [backed_up_then_deleted, hB, Close, touch, hl]
  have hdf : (backed_up_then_deleted env s).file_name_ = s.file_name_ := by
    simp [backed_up_then_deleted, hB, Close, touch, hl]
  have hdn : metadata_block env (backed_up_then_deleted env s) = metadata_block env s := by
    simp [backed_up_then_deleted, hB, Close, touch, hl, metadata_block]
  have hdm : (backed_up_then_deleted env s).fs s.file_name_ = none := by
    simp [backed_up_then_deleted, fs_erase]
  have hds : (backed_up_then_deleted env s).fs (s.file_name_ ++ snapshot_suffix) =
      some (File.snapshot C) := by
    simp [backed_up_then_deleted, hB, Close, touch, hl, fs_erase, fs_write,
      snapshot_suffix_ne_nil]
  obtain ⟨l, c, e1, _, e3⟩ := Open_success env (backed_up_then_deleted env s) n [] hdl
    (by rw [hdf, hdm]; exact hfresh) (Or.inr ⟨by rw [hdf]; exact hdm, rfl⟩)
  have hnone : db_get db_name_key ([] : Records) = none := rfl
  refine ⟨_, db_load l [], e1, rfl, ?_, ?_, ?_, ?_⟩
  · simp [content, loaded_with, fs_write]
  · intro p hp
    rcases mem_db_load _ _ _ hp with h | h
    · have := (e3 hnone).1 p h
      rw [hdn] at this
      exact this
    · simp at h
  · intro hall
    rw [(e3 hnone).2 hall, hdn]
  · simp only [loaded_with, hdf]
    rw [fs_write_other _ _ _ _ (snapshot_path_ne _)]
    exact hds

/-- C1 (amended). Let `Backup()` succeed on a store with records `C` in key order,
let the store then be closed, and let the engine be able to create the main file
anew.  If the main file is afterwards corrupted (a file the engine cannot open is
left at its path) and moving it aside and the snapshot load succeed, then `Open()`
returns true with the store loaded; every record of `C` is in the store with its
value, any other record is one of the metadata block stamped by `Open`, and the
records are exactly `C` when `C` holds every key of that block.  If the main file is
deleted instead, `Open()` returns true on a freshly created store whose records are
all records of the metadata block stamped by `Open` (the whole block when the engine
writes succeed): no other record of `C` comes back, and the snapshot file is left as
it is. -/
theorem snapshot_round_trip (env : Env) (s : State) (n : Nat) (C : Records)
    (hC : s.fs s.file_name_ = some (File.tree C))
    (hasc : Ascending C)
    (hbackup : (Backup env s).1 = true)
    (hfresh : env.open_ok s.file_name_ none = true) :
    (Close (Backup env s).2).1 = true ∧
    (∀ g : File, (env.open_ok s.file_name_ (some g) = false ∨ ∀ r, g ≠ File.tree r) →
      (env.rename_ok s.file_name_ (s.file_name_ ++ old_suffix) = true ∨
        env.unlink_ok s.file_name_ = true) →
      env.load_ok (s.file_name_ ++ snapshot_suffix) = true →
      ∃ s' recs, Open env (n + 3) (backed_up_then_corrupted env s g) =
          some (Outcome.returned true s') ∧
        s'.loaded_ = true ∧ content s' = some recs ∧
        (∀ k v, (k, v) ∈ C → db_get k recs = some v) ∧
        (∀ p, p ∈ recs → p ∈ C ∨ p ∈ metadata_block env s) ∧
        ((∀ p ∈ metadata_block env s, db_get p.1 C ≠ none) → recs = C)) ∧
    (∃ s' recs, Open env (n + 1) (backed_up_then_deleted env s) =
        some (Outcome.returned true s') ∧
      s'.loaded_ = true ∧ content s' = some recs ∧
      (∀ p, p ∈ recs → p ∈ metadata_block env s) ∧
      ((∀ k v, env.set_ok k v = true) → recs = db_load (metadata_block env s) []) ∧
      (∀ p, p ∈ C → p ∉ metadata_block env s → p ∉ recs) ∧
      s'.fs (s.file_name_ ++ snapshot_suffix) = some (File.snapshot C)) := by
  obtain ⟨hl, hB⟩ := Backup_ok env s C hC hbackup
  refine ⟨by simp [hB, Close, touch, hl], ?_, ?_⟩
  · intro g hfail hmove hload
    exact (round_trip_corrupted env s n C g hC hasc hbackup hfail hmove hfresh hload).2
  · obtain ⟨s', recs, h1, h2, h3, h4, h5, h6⟩ := round_trip_deleted env s n C hC hbackup hfresh
    exact ⟨s', recs, h1, h2, h3, h4, h5, fun p _ hn hp => hn (h4 p hp), h6⟩

/-- C1 (witness). The store "alice", backed up and closed; its main file then replaced
by an unusable one, or deleted. -/
theorem snapshot_round_trip_witness :
    alice_loaded.fs alice_loaded.file_name_ = some (File.tree alice_records) ∧
    Ascending alice_records ∧ (Backup demo_env alice_loaded).1 = true ∧
    demo_env.open_ok alice_loaded.file_name_ none = true ∧
    (Close (Backup demo_env alice_loaded).2).1 = true ∧
    (∀ p ∈ metadata_block demo_env alice_loaded, db_get p.1 alice_records ≠ none) ∧
    (∃ s', Open demo_env 3 (backed_up_then_corrupted demo_env alice_loaded (File.other [0])) =
        some (Outcome.returned true s') ∧
      s'.loaded_ = true ∧ content s' = some alice_records) ∧
    (∃ s', Open demo_env 1 (backed_up_then_deleted demo_env alice_loaded) =
        some (Outcome.returned true s') ∧
      s'.loaded_ = true ∧
      content s' = some (db_load (metadata_block demo_env alice_loaded) []) ∧
      s'.fs (alice_loaded.file_name_ ++ snapshot_suffix) =
        some (File.snapshot alice_records)) := by
  have h := snapshot_round_trip demo_env alice_loaded 0 alice_records
    (by decide) (by decide) (by decide) rfl
  obtain ⟨hc, hcor, s2, recs2, d1, d2, d3, _, d5, _, d7⟩ := h
  obtain ⟨s1, recs1, h1, h2, h3, _, _, h6⟩ := hcor (File.other [0])
    (Or.inr (fun r h => File.noConfusion h)) (Or.inl rfl) rfl
  have hm : ∀ p ∈ metadata_block demo_env alice_loaded, db_get p.1 alice_records ≠ none := by
    decide
  have e := h6 hm
  subst e
  have e2 := d5 (fun _ _ => rfl)
  subst e2
  exact ⟨by decide, by decide, by decide, rfl, hc, hm, ⟨s1, h1, h2, h3⟩, ⟨s2, d1, d2, d3, d7⟩⟩

/-- C1 (counterexample). The store "alice" holds its metadata and the record
("a1","v1"); `Backup()` succeeds, the store is closed, the main file is deleted.
`Open()` then returns true on a freshly created store that holds the metadata only:
the snapshot is not read and the record is gone. -/
theorem deleted_main_file_is_not_restored :
    content alice_loaded = some alice_records ∧
    (Backup demo_env alice_loaded).1 = true ∧
    (Close (Backup demo_env alice_loaded).2).1 = true ∧
    (backed_up_then_deleted demo_env alice_loaded).fs alice_loaded.file_name_ = none ∧
    (backed_up_then_deleted demo_env alice_loaded).fs
        (alice_loaded.file_name_ ++ snapshot_suffix) = some (File.snapshot alice_records) ∧
    (Open demo_env 3 (backed_up_then_deleted demo_env alice_loaded)).map
        (fun r => (r.value, r.state.loaded_)) = some (some true, true) ∧
    (Open demo_env 3 (backed_up_then_deleted demo_env alice_loaded)).map
        (fun r => content r.state) =
      some (some [(db_name_key, ascii "alice"), (rime_version_key, ascii "0.9")]) ∧
    (Open demo_env 3 (backed_up_then_deleted demo_env alice_loaded)).map
        (fun r => content r.state) ≠ some (some alice_records) := by
  decide

/-! ### Iteration bounded by a key prefix -/

theorem keyLt_nil_right (k : Bytes) : keyLt k [] = false := by
  cases k <;> rfl

theorem starts_with_nil (k : Bytes) : starts_with k [] = true := by
  simp [starts_with]

theorem starts_with_cons (x a : Nat) (xs ps : Bytes) :
    starts_with (x :: xs) (a :: ps) = (a == x && starts_with xs ps) := by
  simp [starts_with, List.isPrefixOf]

theorem not_lt_of_starts_with : ∀ (k p : Bytes), starts_with k p = true → keyLt k p = false
  | k, [], _ => keyLt_nil_right k
  | [], _ :: _, h => by simp [starts_with, List.isPrefixOf] at h
  | x :: xs, a :: ps, h => by
    rw [starts_with_cons] at h
    simp only [Bool.and_eq_true, beq_iff_eq] at h
    obtain ⟨hax, h2⟩ := h
    subst hax
    simp [keyLt, not_lt_of_starts_with xs ps h2]

theorem past_the_range : ∀ (p k1 k2 : Bytes), keyLt k1 k2 = true → keyLt k1 p = false →
    starts_with k1 p = false → starts_with k2 p = false
  | [], k1, _, _, _, h3 => by rw [starts_with_nil] at h3; exact Bool.noConfusion h3
  | _ :: _, [], _, _, h2, _ => by simp [keyLt] at h2
  | _ :: _, _ :: _, [], _, _, _ => by simp [starts_with, List.isPrefixOf]
  | a :: ps, x :: xs, y :: ys, h1, h2, h3 => by
    rw [starts_with_cons] at h3 ⊢
    simp only [keyLt] at h1 h2
    by_cases hay : a = y
    · subst hay
      by_cases hxa : x < a
      · simp [hxa] at h2
      · by_cases hax : a < x
        · simp [hxa, hax] at h1
        · have hxa' : x = a := by omega
          subst hxa'
          simp only [lt_irrefl, if_false] at h1 h2
          simp only [beq_self_eq_true, Bool.true_and] at h3 ⊢
          exact past_the_range ps xs ys h1 h2 h3
    · simp [hay]

theorem filter_dropWhile_below (p : Bytes) (db : Records) :
    (db.dropWhile (fun x => keyLt x.1 p)).filter (fun r => starts_with r.1 p) =
      db.filter (fun r => starts_with r.1 p) := by
  induction db with
  | nil => rfl
  | cons hd tl ih =>
    cases h : keyLt hd.1 p
    · simp [List.dropWhile, h]
    · have hs : starts_with hd.1 p = false := by
        cases hs : starts_with hd.1 p
        · rfl
        · rw [not_lt_of_starts_with _ _ hs] at h; exact Bool.noConfusion h
      simp [List.dropWhile, h, List.filter, hs, ih]

theorem dropWhile_below_bounds (p : Bytes) (db : Records) (hasc : Ascending db) :
    Ascending (db.dropWhile (fun x => keyLt x.1 p)) ∧
    ∀ r ∈ db.dropWhile (fun x => keyLt x.1 p), keyLt r.1 p = false := by
  induction db with
  | nil => exact ⟨by simp [Ascending], by simp⟩
  | cons hd tl ih =>
    have hasc' := hasc
    unfold Ascending at hasc'
    rw [List.pairwise_cons] at hasc'
    cases h : keyLt hd.1 p
    · simp only [List.dropWhile, h]
      refine ⟨hasc, ?_⟩
      intro r hr
      rcases List.mem_cons.1 hr with hr | hr
      · rw [hr]; exact h
      · cases h2 : keyLt r.1 p
        · rfl
        · have := keyLt_trans _ _ _ (hasc'.1 r hr) h2
          rw [h] at this; exact Bool.noConfusion this
    · simp only [List.dropWhile, h]
      exact ih hasc'.2

theorem read_all_spec (p : Bytes) (db : Records) : ∀ (rest : Records), Ascending rest →
    (∀ r ∈ rest, keyLt r.1 p = false) → ∀ n, rest.length < n →
    ∃ a', TreeDbAccessor.read_all n { cursor_ := some { db := db, rest := rest }, prefix_ := p } =
        some (rest.filter (fun r => starts_with r.1 p), a') ∧
      a'.exhausted = some true := by
  intro rest
  induction rest with
  | nil =>
    intro _ _ n hn
    cases n with
    | zero => simp at hn
    | succ n =>
      exact ⟨{ cursor_ := some { db := db, rest := [] }, prefix_ := p },
        by simp [TreeDbAccessor.read_all, TreeDbAccessor.GetNextRecord, Cursor.get],
        by simp [TreeDbAccessor.exhausted, Cursor.get_key, Cursor.get]⟩
  | cons r rs ih =>
    intro hasc hge n hn
    have hasc' := hasc
    unfold Ascending at hasc'
    rw [List.pairwise_cons] at hasc'
    cases n with
    | zero => simp at hn
    | succ n =>
      have hn' : rs.length < n := by simpa using hn
      cases hs : starts_with r.1 p
      · have hnone : ∀ r' ∈ rs, starts_with r'.1 p = false := fun r' hr' =>
          past_the_range p r.1 r'.1 (hasc'.1 r' hr') (hge r (List.mem_cons_self _ _)) hs
        have hf : rs.filter (fun r => starts_with r.1 p) = [] := by
          rw [List.filter_eq_nil_iff]
          intro a ha; simp [hnone a ha]
        refine ⟨{ cursor_ := some { db := db, rest := rs }, prefix_ := p }, ?_, ?_⟩
        · simp [TreeDbAccessor.read_all, TreeDbAccessor.GetNextRecord, Cursor.get, hs,
            List.filter, hf]
        · cases rs with
          | nil => simp [TreeDbAccessor.exhausted, Cursor.get_key, Cursor.get]
          | cons r' rs' =>
            simp [TreeDbAccessor.exhausted, Cursor.get_key, Cursor.get,
              hnone r' (List.mem_cons_self _ _)]
      · obtain ⟨a', h1, h2⟩ := ih hasc'.2 (fun r' hr' => hge r' (List.mem_cons_of_mem _ hr')) n hn'
        refine ⟨a', ?_, h2⟩
        simp [TreeDbAccessor.read_all, TreeDbAccessor.GetNextRecord, Cursor.get, hs,
          List.filter, h1]

theorem Query_loaded (s : State) (db : Records) (p : Bytes) (hl : s.loaded_ = true)
    (hdb : content s = some db) :
    (Query s p).1 = some (TreeDbAccessor.mk
      (some (Cursor.mk db (if p = [] then db else db.dropWhile (fun x => keyLt x.1 p)))) p) := by
  cases p with
  | nil =>
    simp [Query, hl, hdb, TreeDbAccessor.new, TreeDbAccessor.Reset, Cursor.jump]
  | cons a ps =>
    simp [Query, hl, hdb, TreeDbAccessor.new, TreeDbAccessor.Reset, Cursor.jump,
      TreeDbAccessor.Forward, Cursor.jump_to]

/-- C4. On a loaded store whose records are in key order, the accessor returned by
`Query(p)` yields through successive successful `GetNextRecord` calls exactly the
records whose key starts with `p`, in the order of the store (ascending keys, each
once); the accessor is exhausted after the first failing call; and for any accessor
a call fails exactly when `exhausted()` holds before it, that is when no key remains
or the current key does not start with the prefix. -/
theorem prefix_bounded_iteration (s : State) (db : Records) (p : Bytes) (n : Nat)
    (hl : s.loaded_ = true) (hdb : content s = some db) (hasc : Ascending db)
    (hn : db.length < n) :
    (∃ a a', (Query s p).1 = some a ∧
      a.read_all n = some (db.filter (fun r => starts_with r.1 p), a') ∧
      a'.exhausted = some true) ∧
    Ascending (db.filter (fun r => starts_with r.1 p)) ∧
    (∀ c pfx, ((TreeDbAccessor.GetNextRecord { cursor_ := some c, prefix_ := pfx }).1 = false ↔
      TreeDbAccessor.exhausted { cursor_ := some c, prefix_ := pfx } = some true)) := by
  refine ⟨?_, List.Pairwise.sublist (List.filter_sublist _) hasc, ?_⟩
  · refine ⟨TreeDbAccessor.mk
      (some (Cursor.mk db (if p = [] then db else db.dropWhile (fun x => keyLt x.1 p)))) p, ?_⟩
    by_cases hp : p = []
    · subst hp
      obtain ⟨a', h1, h2⟩ := read_all_spec [] db db hasc (fun r _ => keyLt_nil_right _) n hn
      exact ⟨a', Query_loaded s db [] hl hdb, h1, h2⟩
    · obtain ⟨h3, h4⟩ := dropWhile_below_bounds p db hasc
      have hlen : (db.dropWhile (fun x => keyLt x.1 p)).length < n :=
        lt_of_le_of_lt (List.Sublist.length_le (List.dropWhile_sublist _)) hn
      obtain ⟨a', h1, h2⟩ := read_all_spec p db _ h3 h4 n hlen
      rw [filter_dropWhile_below] at h1
      simp only [hp, if_false]
      exact ⟨a', by rw [Query_loaded s db p hl hdb]; simp [hp], h1, h2⟩
  · intro c pfx
    cases hr : c.rest with
    | nil => simp [TreeDbAccessor.GetNextRecord, TreeDbAccessor.exhausted, Cursor.get_key,
        Cursor.get, hr]
    | cons r rs => simp [TreeDbAccessor.GetNextRecord, TreeDbAccessor.exhausted, Cursor.get_key,
        Cursor.get, hr]

/-- C4 (witness). The scenario: records a1, a2, b1 after the metadata, read through `Query("a")`. -/
theorem prefix_bounded_iteration_witness :
    scenario.loaded_ = true ∧ content scenario = some scenario_records ∧
    Ascending scenario_records ∧ scenario_records.length < 6 ∧
    scenario_records.filter (fun r => starts_with r.1 (ascii "a")) =
      [(ascii "a1", ascii "v1"), (ascii "a2", ascii "v2")] ∧
    ∃ a a', (Query scenario (ascii "a")).1 = some a ∧
      a.read_all 6 = some (scenario_records.filter (fun r => starts_with r.1 (ascii "a")), a') ∧
      a'.exhausted = some true :=
  ⟨rfl, by decide, by decide, by decide, by decide,
    (prefix_bounded_iteration scenario scenario_records (ascii "a") 6 rfl (by decide)
      (by decide) (by decide)).1⟩

/-! ### Simplifier -/

/-- C7. On a loaded store `Open`, `OpenReadOnly` and `Remove` return false (the
backing file stays on disk); on a store that is not loaded `Close`, `Fetch`,
`Update`, `Erase`, `Backup` and `Restore` return false and `Query` returns the null
accessor.  In every case the whole state is unchanged: loaded flag, files, records
and the count of engine calls. -/
theorem wrong_state_calls_fail (env : Env) (s : State) (n : Nat) (k v p f : Bytes) :
    (s.loaded_ = true →
      Open env (n + 1) s = some (Outcome.returned false s) ∧
      OpenReadOnly env s = (false, s) ∧
      Remove env s = Outcome.returned false s ∧
      Exists env (Remove env s).state = Exists env s) ∧
    (s.loaded_ = false →
      Close s = (false, s) ∧ Fetch s k = (none, s) ∧ Update env s k v = (false, s) ∧
      Erase env s k = (false, s) ∧ Backup env s = (false, s) ∧
      Restore env s f = (false, s) ∧ Query s p = (none, s)) := by
  constructor
  · intro h
    simp [Open, OpenReadOnly, Remove, Outcome.state, h]
  · intro h
    simp [Close, Fetch, Update, Erase, Backup, Restore, Query, h]

/-- C7 (witness). A loaded store and a closed store. -/
theorem wrong_state_calls_fail_witness :
    (demo_loaded.loaded_ = true ∧
      Open demo_env 1 demo_loaded = some (Outcome.returned false demo_loaded) ∧
      OpenReadOnly demo_env demo_loaded = (false, demo_loaded) ∧
      Remove demo_env demo_loaded = Outcome.returned false demo_loaded ∧
      Exists demo_env (Remove demo_env demo_loaded).state = Exists demo_env demo_loaded) ∧
    (demo_closed.loaded_ = false ∧
      Close demo_closed = (false, demo_closed) ∧
      Fetch demo_closed (ascii "a1") = (none, demo_closed) ∧
      Update demo_env demo_closed (ascii "a1") (ascii "v1") = (false, demo_closed) ∧
      Erase demo_env demo_closed (ascii "a1") = (false, demo_closed) ∧
      Backup demo_env demo_closed = (false, demo_closed) ∧
      Restore demo_env demo_closed (ascii "x") = (false, demo_closed) ∧
      Query demo_closed (ascii "a") = (none, demo_closed)) :=
  ⟨⟨rfl, (wrong_state_calls_fail demo_env demo_loaded 0 [] [] [] []).1 rfl⟩,
   ⟨rfl, (wrong_state_calls_fail demo_env demo_closed 0 (ascii "a1") (ascii "v1")
      (ascii "a") (ascii "x")).2 rfl⟩⟩

end Rime
